import Mathlib

/-!
Verification of the edge-matching puzzle solver (`solver.py`,
`compare_solutions.py`).

Python strings are modelled as `List Char`, Python lists as Lean lists,
the mutable grid / used-set of the backtracking engine as explicit state
threaded through the recursion, and the recursion itself with an explicit
fuel argument that is never exhausted on the calls the program makes
(the search fills one cell per level, so `n * n` fuel is exact).
-/

/-- Python strings (`str`), modelled as lists of characters. -/
abbrev PyStr := List Char

/-- An edge `[color, part]` of a card (`solver.py` represents it as a
two-element list of strings). -/
structure Edge where
  color : PyStr
  part : PyStr
deriving DecidableEq, Inhabited

/-- A card `[top, right, bottom, left]` (`solver.py` represents it as a
four-element list of edges). -/
structure Card where
  top : Edge
  right : Edge
  bottom : Edge
  left : Edge
deriving DecidableEq, Inhabited

/-- Helper to build an edge from its two one-character strings. -/
def mkEdge (c p : Char) : Edge := ⟨[c], [p]⟩

/-- The set of 9 unicorn cards (`unicorn_cardset` in `solver.py`). -/
def unicorn_cardset : List Card :=
  [⟨mkEdge 'P' 'T', mkEdge 'G' 'T', mkEdge 'R' 'H', mkEdge 'Y' 'H'⟩,
   ⟨mkEdge 'P' 'H', mkEdge 'G' 'H', mkEdge 'R' 'T', mkEdge 'Y' 'T'⟩,
   ⟨mkEdge 'R' 'T', mkEdge 'Y' 'H', mkEdge 'G' 'H', mkEdge 'P' 'T'⟩,
   ⟨mkEdge 'R' 'H', mkEdge 'Y' 'H', mkEdge 'P' 'T', mkEdge 'Y' 'T'⟩,
   ⟨mkEdge 'R' 'T', mkEdge 'G' 'T', mkEdge 'P' 'H', mkEdge 'Y' 'H'⟩,
   ⟨mkEdge 'R' 'T', mkEdge 'P' 'T', mkEdge 'R' 'H', mkEdge 'G' 'H'⟩,
   ⟨mkEdge 'P' 'H', mkEdge 'G' 'H', mkEdge 'R' 'T', mkEdge 'G' 'T'⟩,
   ⟨mkEdge 'Y' 'T', mkEdge 'P' 'T', mkEdge 'Y' 'H', mkEdge 'G' 'H'⟩,
   ⟨mkEdge 'P' 'T', mkEdge 'G' 'H', mkEdge 'Y' 'H', mkEdge 'Y' 'T'⟩]

/-- The set of 16 ultimate cards (`ultimate_cardset` in `solver.py`). -/
def ultimate_cardset : List Card :=
  [⟨mkEdge 'C' 'O', mkEdge 'C' 'O', mkEdge 'A' 'I', mkEdge 'C' 'I'⟩,
   ⟨mkEdge 'C' 'O', mkEdge 'A' 'O', mkEdge 'P' 'I', mkEdge 'C' 'I'⟩,
   ⟨mkEdge 'C' 'O', mkEdge 'A' 'O', mkEdge 'A' 'I', mkEdge 'C' 'I'⟩,
   ⟨mkEdge 'A' 'O', mkEdge 'B' 'O', mkEdge 'C' 'I', mkEdge 'A' 'I'⟩,
   ⟨mkEdge 'A' 'O', mkEdge 'P' 'O', mkEdge 'C' 'I', mkEdge 'A' 'I'⟩,
   ⟨mkEdge 'A' 'O', mkEdge 'A' 'O', mkEdge 'B' 'I', mkEdge 'C' 'I'⟩,
   ⟨mkEdge 'A' 'O', mkEdge 'P' 'O', mkEdge 'B' 'I', mkEdge 'P' 'I'⟩,
   ⟨mkEdge 'B' 'O', mkEdge 'C' 'O', mkEdge 'P' 'I', mkEdge 'C' 'I'⟩,
   ⟨mkEdge 'B' 'O', mkEdge 'C' 'O', mkEdge 'A' 'I', mkEdge 'B' 'I'⟩,
   ⟨mkEdge 'B' 'O', mkEdge 'C' 'O', mkEdge 'B' 'I', mkEdge 'P' 'I'⟩,
   ⟨mkEdge 'B' 'O', mkEdge 'B' 'O', mkEdge 'P' 'I', mkEdge 'C' 'I'⟩,
   ⟨mkEdge 'B' 'O', mkEdge 'B' 'O', mkEdge 'P' 'I', mkEdge 'A' 'I'⟩,
   ⟨mkEdge 'P' 'O', mkEdge 'C' 'O', mkEdge 'C' 'I', mkEdge 'B' 'I'⟩,
   ⟨mkEdge 'P' 'O', mkEdge 'C' 'O', mkEdge 'C' 'I', mkEdge 'P' 'I'⟩,
   ⟨mkEdge 'P' 'O', mkEdge 'C' 'O', mkEdge 'A' 'I', mkEdge 'A' 'I'⟩,
   ⟨mkEdge 'P' 'O', mkEdge 'B' 'O', mkEdge 'B' 'I', mkEdge 'A' 'I'⟩]

/-- One clockwise quarter-turn of a card: the body of the loop in
`rotate_card` (`rotated = [rotated[3], rotated[0], rotated[1], rotated[2]]`). -/
def rotateOnce (c : Card) : Card := ⟨c.left, c.top, c.right, c.bottom⟩

/-- `rotate_card` from `solver.py`: normalise the rotation count with
Python `%` (which agrees with `Int.emod` for a positive modulus), return
a copy for rotation 0, otherwise apply the quarter-turn that many times. -/
def rotate_card (card : Card) (rotations : Int) : Card :=
  let r := (rotations % 4).toNat
  if r = 0 then card else rotateOnce^[r] card

/-- `edges_match` from `solver.py`: colors must agree and the parts must
differ. -/
def edges_match (edge1 edge2 : Edge) : Bool :=
  if edge1.color ≠ edge2.color then false
  else if edge1.part = edge2.part then false
  else true

/-- The mutable grid of the search: an N×N list of optional cards. -/
abbrev PyGrid := List (List (Option Card))

/-- Read `grid[row][col]` (always in range on the calls the solver makes). -/
def getCell (grid : PyGrid) (row col : Nat) : Option Card :=
  (grid.getD row []).getD col none

/-- Write `grid[row][col] = v`. -/
def setCell (grid : PyGrid) (row col : Nat) (v : Option Card) : PyGrid :=
  grid.set row ((grid.getD row []).set col v)

/-- `is_valid_placement` from `solver.py`: the four neighbor checks,
in source order (top, right, bottom, left), each skipped when the
neighbor is out of bounds or empty. -/
def is_valid_placement (grid : PyGrid) (row col : Nat) (card : Card)
    (grid_size : Nat) : Bool :=
  (if 0 < row then
     match getCell grid (row - 1) col with
     | some above => edges_match card.top above.bottom
     | none => true
   else true) &&
  (if col < grid_size - 1 then
     match getCell grid row (col + 1) with
     | some rightc => edges_match card.right rightc.left
     | none => true
   else true) &&
  (if row < grid_size - 1 then
     match getCell grid (row + 1) col with
     | some below => edges_match card.bottom below.top
     | none => true
   else true) &&
  (if 0 < col then
     match getCell grid row (col - 1) with
     | some leftc => edges_match card.left leftc.right
     | none => true
   else true)

/-- Result of one recursive `backtrack` call: the solutions it appended,
together with the grid and used-set state it leaves behind. -/
abbrev SearchRes := List PyGrid × PyGrid × List Nat

/-- The inner rotation loop of `backtrack` (`for rotation in range(4)`),
threading the grid and used-set state; `rec` is the recursive call into
the next cell.  On a valid placement the card is written and marked used,
the recursion runs, and then the cell is cleared and the card unmarked,
exactly as in the source. -/
def goRot (valid : PyGrid → Nat → Nat → Card → Nat → Bool)
    (rec : PyGrid → List Nat → SearchRes) (base : Card) (ci : Nat)
    (n row col : Nat) : List Int → PyGrid → List Nat → SearchRes
  | [], grid, used => ([], grid, used)
  | rot :: rots, grid, used =>
    let rc := rotate_card base rot
    if valid grid row col rc n then
      let res := rec (setCell grid row col (some rc)) (ci :: used)
      let rest := goRot valid rec base ci n row col rots
        (setCell res.2.1 row col none) (res.2.2.erase ci)
      (res.1 ++ rest.1, rest.2)
    else
      goRot valid rec base ci n row col rots grid used

/-- The outer card loop of `backtrack`
(`for card_idx in range(len(cardset))`), skipping used cards. -/
def goCards (valid : PyGrid → Nat → Nat → Card → Nat → Bool)
    (rec : PyGrid → List Nat → SearchRes) (cardset : List Card)
    (n row col : Nat) : List Nat → PyGrid → List Nat → SearchRes
  | [], grid, used => ([], grid, used)
  | ci :: cis, grid, used =>
    if ci ∈ used then goCards valid rec cardset n row col cis grid used
    else
      let r1 := goRot valid rec (cardset.getD ci default) ci n row col
        [0, 1, 2, 3] grid used
      let r2 := goCards valid rec cardset n row col cis r1.2.1 r1.2.2
      (r1.1 ++ r2.1, r2.2)

/-- The recursive `backtrack` closure of `solve_puzzle`, with explicit
state and fuel.  `card_index = total_positions` emits a snapshot of the
grid; otherwise every unused card is tried in every rotation at cell
`(card_index / n, card_index % n)`.  The fuel-0 fallthrough is never
reached when the function is started with fuel `n * n` at index 0. -/
def backtrackAux (valid : PyGrid → Nat → Nat → Card → Nat → Bool)
    (cardset : List Card) (n : Nat) :
    Nat → Nat → PyGrid → List Nat → SearchRes
  | 0, idx, grid, used =>
    if idx = n * n then ([grid], grid, used) else ([], grid, used)
  | fuel + 1, idx, grid, used =>
    if idx = n * n then ([grid], grid, used)
    else
      goCards valid (fun g u => backtrackAux valid cardset n fuel (idx + 1) g u)
        cardset n (idx / n) (idx % n) (List.range cardset.length) grid used

/-- The initial all-`None` grid built by `solve_puzzle`. -/
def emptyGrid (n : Nat) : PyGrid := List.replicate n (List.replicate n none)

/-- `solve_puzzle` from `solver.py`: run the backtracking search from an
empty grid and an empty used-set and return the collected solutions. -/
def solve_puzzle (cardset : List Card) (grid_size : Nat) : List PyGrid :=
  (backtrackAux is_valid_placement cardset grid_size (grid_size * grid_size) 0
    (emptyGrid grid_size) []).1

/-- The synthetic 2×2 fixture of spec §8: four interchangeable cards,
each carrying the same single `(label, polarity)` edge on all 4 sides. -/
def interchangeableFixture : List Card :=
  List.replicate 4 ⟨mkEdge 'A' 'I', mkEdge 'A' 'I', mkEdge 'A' 'I', mkEdge 'A' 'I'⟩

/-- Well-formedness of the live grid: `n` rows, each of width `n`. -/
def Wf (n : Nat) (g : PyGrid) : Prop :=
  g.length = n ∧ ∀ row ∈ g, row.length = n

/-- All cells at flat (row-major) index ≥ `idx` are still empty. -/
def NoneFrom (n idx : Nat) (g : PyGrid) : Prop :=
  ∀ r, r < n → ∀ c, c < n → (idx ≤ r * n + c → getCell g r c = none)

/-- All cells at flat (row-major) index < `idx` are filled. -/
def FilledBelow (n idx : Nat) (g : PyGrid) : Prop :=
  ∀ r, r < n → ∀ c, c < n → (r * n + c < idx → getCell g r c ≠ none)

/-- Every horizontally or vertically adjacent pair of filled cells has
matching touching edges. -/
def AdjacentOk (g : PyGrid) : Prop :=
  (∀ r c a b, getCell g r c = some a → getCell g r (c + 1) = some b →
    edges_match a.right b.left = true) ∧
  (∀ r c a b, getCell g r c = some a → getCell g (r + 1) c = some b →
    edges_match a.bottom b.top = true)

/-- Bookkeeping between the grid, the used-set and a list of
`(card index, rotation)` choices made for cells `0 .. idx-1` in order. -/
def Tracked (cardset : List Card) (n idx : Nat) (g : PyGrid)
    (used : List Nat) (pairs : List (Nat × Int)) : Prop :=
  pairs.length = idx ∧
  (pairs.map Prod.fst).Nodup ∧
  (∀ p ∈ pairs, p.1 < cardset.length ∧ p.1 ∈ used) ∧
  (∀ k, k < idx → getCell g (k / n) (k % n) =
    some (rotate_card (cardset.getD (pairs.getD k (0, 0)).1 default)
      (pairs.getD k (0, 0)).2))

/-- The search invariant at cell index `idx`: a well-formed grid, all
cells from `idx` on still empty, all placed adjacent edges matching, and
the placements so far tracked by distinct used card indices. -/
def SearchInv (cardset : List Card) (n idx : Nat) (g : PyGrid)
    (used : List Nat) : Prop :=
  Wf n g ∧ NoneFrom n idx g ∧ AdjacentOk g ∧
  ∃ pairs, Tracked cardset n idx g used pairs

/-- What claim C1 demands of an emitted solution: an `n × n` grid, every
cell filled, all adjacent touching edges matching, and the cells are
rotations of catalog cards at pairwise-distinct catalog indices. -/
def isValidSolution (cardset : List Card) (n : Nat) (sol : PyGrid) : Prop :=
  sol.length = n ∧ (∀ row ∈ sol, row.length = n) ∧
  (∀ r, r < n → ∀ c, c < n → getCell sol r c ≠ none) ∧
  AdjacentOk sol ∧
  ∃ pairs : List (Nat × Int), pairs.length = n * n ∧
    (pairs.map Prod.fst).Nodup ∧
    (∀ p ∈ pairs, p.1 < cardset.length) ∧
    (∀ k, k < n * n → getCell sol (k / n) (k % n) =
      some (rotate_card (cardset.getD (pairs.getD k (0, 0)).1 default)
        (pairs.getD k (0, 0)).2))

/-- Modelled from the spec: the validator variant §4.3 allows — identical
to `is_valid_placement` but with the East (right) and South (bottom)
neighbor checks omitted, which the spec claims is sound for the
row-major fill order. -/
def is_valid_placement_noES (grid : PyGrid) (row col : Nat) (card : Card)
    (grid_size : Nat) : Bool :=
  (if 0 < row then
     match getCell grid (row - 1) col with
     | some above => edges_match card.top above.bottom
     | none => true
   else true) &&
  (if 0 < col then
     match getCell grid row (col - 1) with
     | some leftc => edges_match card.left leftc.right
     | none => true
   else true)

/-- `solve_puzzle` run with the East/South-free validator. -/
def solve_puzzle_noES (cardset : List Card) (grid_size : Nat) : List PyGrid :=
  (backtrackAux is_valid_placement_noES cardset grid_size
    (grid_size * grid_size) 0 (emptyGrid grid_size) []).1

/-- Python `str.strip()`: drop whitespace from both ends. -/
def pyStrip (s : PyStr) : PyStr :=
  ((s.dropWhile Char.isWhitespace).reverse.dropWhile Char.isWhitespace).reverse

/-- Python `str.split(sep)` for a single-character separator (keeps the
empty pieces, exactly like Python). -/
def pySplit (sep : Char) : PyStr → List PyStr
  | [] => [[]]
  | c :: cs =>
    if c = sep then [] :: pySplit sep cs
    else
      match pySplit sep cs with
      | [] => [[c]]
      | p :: ps => (c :: p) :: ps

/-- Python `sep.join(parts)`. -/
def pyJoin (sep : PyStr) : List PyStr → PyStr
  | [] => []
  | [p] => p
  | p :: ps => p ++ sep ++ pyJoin sep ps

/-- Python `zip` of three lists (stops at the shortest). -/
def zip3 {α β γ : Type _} : List α → List β → List γ → List (α × β × γ)
  | a :: as, b :: bs, c :: cs => (a, b, c) :: zip3 as bs cs
  | _, _, _ => []

/-- The loop state of `extract_solutions` (`compare_solutions.py`):
collected solutions, the solution being built, the up-to-3 lines of the
grid row being built, the double-separator flag, and the (possibly still
undetected) grid size. -/
structure ExtractState where
  solutions : List (List (List (List PyStr)))
  current_solution : List (List (List PyStr))
  current_row_cards : List (List PyStr)
  prev_was_separator : Bool
  grid_size : Option Nat

/-- The separator-length heuristic of `extract_solutions`: when the grid
size is still undetected, infer it from the separator length (28 → 3,
37 or 39 → 4, anything else → the default 3). -/
def inferSize (gs : Option Nat) (len : Nat) : Option Nat :=
  match gs with
  | none => some (if len = 28 then 3
      else if len = 37 ∨ len = 39 then 4 else 3)
  | some g => some g

/-- One iteration of the `for line in f` loop of `extract_solutions`. -/
def processLine (st : ExtractState) (rawLine : PyStr) : ExtractState :=
  let line := pyStrip rawLine
  if (("Solution").toList).isPrefixOf line then
    { solutions :=
        if !st.current_solution.isEmpty then
          st.solutions ++ [st.current_solution]
        else st.solutions
      current_solution := []
      current_row_cards := []
      prev_was_separator := false
      grid_size := st.grid_size }
  else if (['-']).isPrefixOf line then
    let gs := inferSize st.grid_size line.length
    let flush1 := !st.current_row_cards.isEmpty &&
      st.current_row_cards.length == 3
    let cs1 := if flush1 then st.current_solution ++ [st.current_row_cards]
      else st.current_solution
    let rc1 := if flush1 then ([] : List (List PyStr))
      else st.current_row_cards
    if st.prev_was_separator && !cs1.isEmpty then
      { solutions := st.solutions ++ [cs1]
        current_solution := []
        current_row_cards := []
        prev_was_separator := true
        grid_size := gs }
    else
      { solutions := st.solutions
        current_solution := cs1
        current_row_cards := rc1
        prev_was_separator := true
        grid_size := gs }
  else if (['|']).isPrefixOf line && line.contains ('|') then
    let parts := ((pySplit ('|') line).map pyStrip).filter
      (fun p => !p.isEmpty)
    { st with
      current_row_cards := st.current_row_cards ++ [parts]
      prev_was_separator := false }
  else
    st

/-- `extract_solutions` from `compare_solutions.py`, over the list of
lines of the file: run the loop, then flush the trailing grid row and
trailing solution. -/
def extract_solutions (lines : List PyStr) (grid_size : Option Nat) :
    List (List (List (List PyStr))) :=
  let st := lines.foldl processLine ⟨[], [], [], false, grid_size⟩
  let cs := if !st.current_row_cards.isEmpty &&
      st.current_row_cards.length == 3 then
    st.current_solution ++ [st.current_row_cards]
  else st.current_solution
  if !cs.isEmpty then st.solutions ++ [cs] else st.solutions

/-- `normalize_solution` from `compare_solutions.py`: canonical
comparison string of a parsed solution. -/
def normalize_solution (solution : List (List (List PyStr))) : PyStr :=
  pyJoin ['\n'] (solution.map (fun grid_row =>
    pyJoin ['|'] ((zip3 (grid_row.getD 0 []) (grid_row.getD 1 [])
        (grid_row.getD 2 [])).map
      (fun tmb => tmb.1 ++ ['|'] ++ tmb.2.1 ++ ['|'] ++ tmb.2.2))))

/-- The 8-character top field of one cell: `f"   {c0}{c1}   "`. -/
def cellTopStr (c : Card) : PyStr :=
  [' ', ' ', ' '] ++ c.top.color ++ c.top.part ++ [' ', ' ', ' ']

/-- The 8-character middle field of one cell: `f" {l}  {r} "`. -/
def cellMidStr (c : Card) : PyStr :=
  [' '] ++ c.left.color ++ c.left.part ++ [' ', ' '] ++
    c.right.color ++ c.right.part ++ [' ']

/-- The 8-character bottom field of one cell: `f"   {b0}{b1}   "`. -/
def cellBotStr (c : Card) : PyStr :=
  [' ', ' ', ' '] ++ c.bottom.color ++ c.bottom.part ++ [' ', ' ', ' ']

/-- `"|" + "|".join(parts) + "|"`. -/
def pipeLine (parts : List PyStr) : PyStr :=
  ['|'] ++ pyJoin ['|'] parts ++ ['|']

/-- The lines printed by `print_solution` (`solver.py`): a separator
before each grid row, the three framed edge lines per row, and a final
separator. -/
def print_solution_lines (solution : List (List Card)) : List PyStr :=
  let grid_size := solution.length
  let separator : PyStr := List.replicate (grid_size * 8 + grid_size + 1) ('-')
  (solution.map (fun row =>
    [separator,
     pipeLine (row.map cellTopStr),
     pipeLine (row.map cellMidStr),
     pipeLine (row.map cellBotStr)])).flatten ++ [separator]

/-- The parsed (stripped) triplet form of one grid row: the top-edge
strings, the `west + two spaces + east` middle strings, and the
bottom-edge strings. -/
def rowTriplet (row : List Card) : List (List PyStr) :=
  [row.map (fun c => c.top.color ++ c.top.part),
   row.map (fun c => c.left.color ++ c.left.part ++ [' ', ' '] ++
     c.right.color ++ c.right.part),
   row.map (fun c => c.bottom.color ++ c.bottom.part)]

/-- The parsed (stripped) triplet form of a whole solution grid. -/
def solutionTriplets (sol : List (List Card)) : List (List (List PyStr)) :=
  sol.map rowTriplet

/-- Modelled from the spec (§6): the canonical comparison form of a
Solution joins, for each grid row, the top/middle/bottom edge-string
triplet of each cell with `|` separators and the rows with newlines. -/
def canonicalForm (sol : List (List Card)) : PyStr :=
  pyJoin ['\n'] (sol.map (fun row =>
    pyJoin ['|'] (row.map (fun c =>
      (c.top.color ++ c.top.part) ++ ['|'] ++
      (c.left.color ++ c.left.part ++ [' ', ' '] ++
        c.right.color ++ c.right.part) ++ ['|'] ++
      (c.bottom.color ++ c.bottom.part)))))

/-- Edge strings that survive the textual round trip: nonempty, no
whitespace, no `|`. -/
def GoodEdge (e : Edge) : Prop :=
  e.color ≠ [] ∧ e.part ≠ [] ∧
  ∀ ch ∈ e.color ++ e.part, ch.isWhitespace = false ∧ ch ≠ '|'

/-- All four edges of a card survive the textual round trip. -/
def GoodCard (c : Card) : Prop :=
  GoodEdge c.top ∧ GoodEdge c.right ∧ GoodEdge c.bottom ∧ GoodEdge c.left

/-- Python `str.lower()` (ASCII case folding). -/
def pyLower (s : PyStr) : PyStr := s.map Char.toLower

/-- The `ValueError` message of `main` (quotes around the accepted names
omitted). -/
def errUnknown (puzzle_type : PyStr) : PyStr :=
  ("Unknown puzzle type: ").toList ++ puzzle_type ++
    (". Use unicorn or ultimate").toList

/-- `main` from `solver.py`, modelled as the selected configuration and
search result on success and the `ValueError` on an unknown variant name
(printing is modelled away; the error branch performs no search). -/
def pyMain (puzzle_type : PyStr) : Except PyStr (PyStr × Nat × List PyGrid) :=
  if pyLower puzzle_type = ("unicorn").toList then
    Except.ok (("Unicorn Puzzle").toList, 3, solve_puzzle unicorn_cardset 3)
  else if pyLower puzzle_type = ("ultimate").toList then
    Except.ok (("Ultimate Puzzle").toList, 4, solve_puzzle ultimate_cardset 4)
  else
    Except.error (errUnknown puzzle_type)

/-- A concrete card (the first unicorn card), used for witnesses. -/
def witnessCard : Card :=
  ⟨mkEdge 'P' 'T', mkEdge 'G' 'T', mkEdge 'R' 'H', mkEdge 'Y' 'H'⟩

/-- A concrete 1×1 solution grid, used for witnesses. -/
def witnessSol : PyGrid := [[some witnessCard]]

/-- Claim C5: `edges_match` returns true iff the two edges have the same
label (color) and different polarities (parts), and it is symmetric.
(It is a pure function; the embedding is side-effect free by
construction.) -/
theorem edges_match_spec (a b : Edge) :
    (edges_match a b = true ↔ a.color = b.color ∧ a.part ≠ b.part) ∧
    edges_match a b = edges_match b a := by
  constructor
  · unfold edges_match
    by_cases h1 : a.color = b.color <;> by_cases h2 : a.part = b.part <;>
      simp [h1, h2]
  · unfold edges_match
    by_cases h1 : a.color = b.color <;> by_cases h2 : a.part = b.part <;>
      simp [h1, h2, Ne.symm, eq_comm]

/-- Four quarter-turns return a card to its original value. -/
theorem rotateOnce_four (c : Card) : rotateOnce^[4] c = c := by
  cases c; rfl

/-- Iterating the quarter-turn only matters modulo 4. -/
theorem rotateOnce_iterate_mod (k : Nat) (c : Card) :
    rotateOnce^[k] c = rotateOnce^[k % 4] c := by
  induction k using Nat.strong_induction_on with
  | _ k ih =>
    by_cases h : k < 4
    · rw [Nat.mod_eq_of_lt h]
    · have h4 : 4 ≤ k := Nat.le_of_not_lt h
      obtain ⟨m, rfl⟩ : ∃ m, k = m + 4 := ⟨k - 4, (Nat.sub_add_cancel h4).symm⟩
      rw [Function.iterate_add_apply, rotateOnce_four,
        ih m (by omega)]
      congr 1
      omega

/-- `rotate_card` is iteration of the quarter-turn, `(r % 4).toNat` times. -/
theorem rotate_card_eq_iterate (c : Card) (r : Int) :
    rotate_card c r = rotateOnce^[(r % 4).toNat] c := by
  unfold rotate_card
  by_cases h : (r % 4).toNat = 0 <;> simp [h]

/-- Claim C4: rotations compose modulo 4 over all integers (negative and
large rotation counts are normalised by Python `%`, never rejected),
rotating by 4 is the identity, and rotating by 0 returns a card
value-equal to the input. -/
theorem rotate_card_closure (t : Card) (r1 r2 : Int) :
    rotate_card (rotate_card t r1) r2 = rotate_card t ((r1 + r2) % 4) ∧
    rotate_card t 4 = t ∧
    rotate_card t 0 = t := by
  refine ⟨?_, by simp [rotate_card], by simp [rotate_card]⟩
  rw [rotate_card_eq_iterate, rotate_card_eq_iterate, rotate_card_eq_iterate,
    ← Function.iterate_add_apply]
  rw [rotateOnce_iterate_mod]
  congr 1
  omega

/-- Claim C2 (counterexample): on the §8 fixture the engine does not
return 6144 solutions. -/
theorem fixture_not_6144 :
    (solve_puzzle interchangeableFixture 2).length ≠ 6144 := by decide

/-- Claim C2 (amended): on the §8 fixture of four interchangeable cards
with a single identical `(label, polarity)` edge on all sides, the engine
returns exactly 0 solutions, because `edges_match` demands opposite
polarities and therefore never accepts two identical edges. -/
theorem fixture_zero_solutions :
    (solve_puzzle interchangeableFixture 2).length = 0 := by decide

/-- `List.getD` after `List.set` at the same in-range index. -/
theorem list_getD_set_self {α : Type _} :
    ∀ (l : List α) (i : Nat) (a d : α), i < l.length →
      (l.set i a).getD i d = a
  | [], i, a, d, h => absurd h (by simp)
  | x :: xs, 0, a, d, _ => rfl
  | x :: xs, i + 1, a, d, h =>
    list_getD_set_self xs i a d (by simpa using h)

/-- `List.getD` after `List.set` at a different index. -/
theorem list_getD_set_ne {α : Type _} :
    ∀ (l : List α) (i j : Nat) (a d : α), i ≠ j →
      (l.set i a).getD j d = l.getD j d
  | [], _, _, _, _, _ => rfl
  | x :: xs, 0, 0, a, d, h => absurd rfl h
  | x :: xs, 0, j + 1, a, d, _ => rfl
  | x :: xs, i + 1, 0, a, d, _ => rfl
  | x :: xs, i + 1, j + 1, a, d, h =>
    list_getD_set_ne xs i j a d (by omega)

/-- Setting the same index twice keeps only the second write. -/
theorem list_set_set {α : Type _} :
    ∀ (l : List α) (i : Nat) (a b : α), (l.set i a).set i b = l.set i b
  | [], _, _, _ => rfl
  | x :: xs, 0, _, _ => rfl
  | x :: xs, i + 1, a, b => by
    simp only [List.set]
    rw [list_set_set xs i a b]

/-- Writing the value already present leaves the list unchanged. -/
theorem list_set_getD {α : Type _} :
    ∀ (l : List α) (i : Nat) (d : α), i < l.length →
      l.set i (l.getD i d) = l
  | [], i, d, h => absurd h (by simp)
  | x :: xs, 0, d, _ => rfl
  | x :: xs, i + 1, d, h => by
    have ih := list_set_getD xs i d (by simpa using h)
    simp only [List.set]
    congr 1

/-- Setting an out-of-range index is the identity. -/
theorem list_set_oob {α : Type _} :
    ∀ (l : List α) (i : Nat) (a : α), l.length ≤ i → l.set i a = l
  | [], _, _, _ => rfl
  | x :: xs, 0, a, h => absurd h (by simp)
  | x :: xs, i + 1, a, h => by
    simp only [List.set]
    rw [list_set_oob xs i a (by simpa using h)]

/-- An in-range `getD` is a member of the list. -/
theorem list_getD_mem {α : Type _} :
    ∀ (l : List α) (i : Nat) (d : α), i < l.length → l.getD i d ∈ l
  | [], i, d, h => absurd h (by simp)
  | x :: xs, 0, d, _ => List.mem_cons_self _ _
  | x :: xs, i + 1, d, h =>
    List.mem_cons_of_mem _ (list_getD_mem xs i d (by simpa using h))

/-- Row `r` of a well-formed grid has width `n`. -/
theorem wf_row_length {n : Nat} {g : PyGrid} (hwf : Wf n g)
    {r : Nat} (hr : r < n) : (g.getD r []).length = n :=
  hwf.2 _ (list_getD_mem g r [] (by rw [hwf.1]; exact hr))

/-- `setCell` preserves well-formedness. -/
theorem wf_setCell {n : Nat} {g : PyGrid} (hwf : Wf n g)
    (r c : Nat) (v : Option Card) : Wf n (setCell g r c v) := by
  by_cases hr : r < g.length
  · refine ⟨by simp [setCell, hwf.1], ?_⟩
    intro row hmem
    unfold setCell at hmem
    rcases List.mem_or_eq_of_mem_set hmem with h | h
    · exact hwf.2 _ h
    · rw [h, List.length_set]
      exact hwf.2 _ (list_getD_mem g r [] hr)
  · have : setCell g r c v = g := by
      unfold setCell
      exact list_set_oob _ _ _ (by omega)
    rw [this]
    exact hwf

/-- Reading the cell just written. -/
theorem getCell_setCell_self {n : Nat} {g : PyGrid} (hwf : Wf n g)
    {r c : Nat} (hr : r < n) (hc : c < n) (v : Option Card) :
    getCell (setCell g r c v) r c = v := by
  unfold getCell setCell
  rw [list_getD_set_self _ _ _ _ (by rw [hwf.1]; exact hr)]
  exact list_getD_set_self _ _ _ _ (by rw [wf_row_length hwf hr]; exact hc)

/-- Reading a different cell after a write. -/
theorem getCell_setCell_ne {g : PyGrid} {r c r' c' : Nat}
    (h : ¬(r' = r ∧ c' = c)) (v : Option Card) :
    getCell (setCell g r c v) r' c' = getCell g r' c' := by
  unfold getCell setCell
  by_cases hr : r = r'
  · subst hr
    have hc : c ≠ c' := fun hcc => h ⟨rfl, hcc.symm⟩
    by_cases hrl : r < g.length
    · rw [list_getD_set_self _ _ _ _ hrl]
      exact list_getD_set_ne _ _ _ _ _ hc
    · rw [list_set_oob _ _ _ (by omega)]
  · rw [list_getD_set_ne _ _ _ _ _ hr]

/-- Overwriting the same cell twice keeps only the second write. -/
theorem setCell_setCell (g : PyGrid) (r c : Nat) (v w : Option Card) :
    setCell (setCell g r c v) r c w = setCell g r c w := by
  unfold setCell
  by_cases hr : r < g.length
  · rw [list_getD_set_self _ _ _ _ hr, list_set_set, list_set_set]
  · have h1 : List.set g r ((List.getD g r []).set c v) = g :=
      list_set_oob _ _ _ (by omega)
    rw [h1]

/-- Clearing an already-empty cell leaves the grid unchanged. -/
theorem setCell_none_of_none {n : Nat} {g : PyGrid} (hwf : Wf n g)
    {r c : Nat} (hr : r < n) (hc : c < n) (h : getCell g r c = none) :
    setCell g r c none = g := by
  unfold getCell at h
  unfold setCell
  conv_lhs => rw [← h]
  rw [list_set_getD _ _ _ (by rw [wf_row_length hwf hr]; exact hc)]
  exact list_set_getD _ _ _ (by rw [hwf.1]; exact hr)

/-- The grid has a positive side length when some flat index is below `n * n`. -/
theorem n_pos_of_idx {n idx : Nat} (h : idx < n * n) : 0 < n := by
  rcases Nat.eq_zero_or_pos n with h0 | h0
  · subst h0; omega
  · exact h0

/-- The current row index is in range. -/
theorem idx_div_lt {n idx : Nat} (h : idx < n * n) : idx / n < n :=
  (Nat.div_lt_iff_lt_mul (n_pos_of_idx h)).2 h

/-- The current column index is in range. -/
theorem idx_mod_lt {n idx : Nat} (h : idx < n * n) : idx % n < n :=
  Nat.mod_lt _ (n_pos_of_idx h)

/-- Row-major flattening of the current cell gives back the index. -/
theorem idx_div_mod {n idx : Nat} (h : 0 < n) :
    idx / n * n + idx % n = idx := by
  rw [Nat.mul_comm]
  exact Nat.div_add_mod idx n

/-- Row-major flattening is injective on in-range coordinates. -/
theorem flat_inj {n r c r' c' : Nat} (hc : c < n) (hc' : c' < n)
    (h : r * n + c = r' * n + c') : r = r' ∧ c = c' := by
  have hn : 0 < n := by omega
  have h1 : (r * n + c) / n = r := by
    rw [Nat.mul_comm r n, Nat.mul_add_div hn, Nat.div_eq_of_lt hc, Nat.add_zero]
  have h2 : (r' * n + c') / n = r' := by
    rw [Nat.mul_comm r' n, Nat.mul_add_div hn, Nat.div_eq_of_lt hc', Nat.add_zero]
  have h3 : (r * n + c) % n = c := by
    rw [Nat.mul_comm r n, Nat.mul_add_mod, Nat.mod_eq_of_lt hc]
  have h4 : (r' * n + c') % n = c' := by
    rw [Nat.mul_comm r' n, Nat.mul_add_mod, Nat.mod_eq_of_lt hc']
  constructor
  · rw [← h1, ← h2, h]
  · rw [← h3, ← h4, h]

/-- A cell distinct from the one being written keeps its value, phrased
through flat indices. -/
theorem getCell_setCell_flat_ne {n idx : Nat} (hidx : idx < n * n)
    {g : PyGrid} {r c : Nat} (hr : r < n) (hc : c < n)
    (hne : r * n + c ≠ idx) (v : Option Card) :
    getCell (setCell g (idx / n) (idx % n) v) r c = getCell g r c := by
  refine getCell_setCell_ne (fun hcc => hne ?_) v
  rw [hcc.1, hcc.2]
  exact idx_div_mod (n_pos_of_idx hidx)

/-- Writing the current cell preserves emptiness of all later cells. -/
theorem noneFrom_setCell {n idx : Nat} (hidx : idx < n * n) {g : PyGrid}
    (hnf : NoneFrom n idx g) (v : Option Card) :
    NoneFrom n (idx + 1) (setCell g (idx / n) (idx % n) v) := by
  intro r hr c hc hge
  rw [getCell_setCell_flat_ne hidx hr hc (by omega) v]
  exact hnf r hr c hc (by omega)

/-- State restoration for the rotation loop: if the recursive call
restores the grid and used-set it receives, so does the whole loop. -/
theorem goRot_restore (valid : PyGrid → Nat → Nat → Card → Nat → Bool)
    (rec : PyGrid → List Nat → SearchRes) (base : Card) (ci : Nat)
    {n idx : Nat} (hidx : idx < n * n)
    (hrec : ∀ g u, Wf n g → NoneFrom n (idx + 1) g → (rec g u).2 = (g, u))
    (rots : List Int) (grid : PyGrid) (used : List Nat)
    (hwf : Wf n grid) (hnf : NoneFrom n idx grid) :
    (goRot valid rec base ci n (idx / n) (idx % n) rots grid used).2 =
      (grid, used) := by
  induction rots generalizing grid used with
  | nil => rfl
  | cons rot rots ih =>
    rw [goRot]
    by_cases hv : valid grid (idx / n) (idx % n) (rotate_card base rot) n
    · simp only [hv, if_true]
      have h1 : Wf n (setCell grid (idx / n) (idx % n)
          (some (rotate_card base rot))) := wf_setCell hwf _ _ _
      have h2 := noneFrom_setCell hidx hnf (some (rotate_card base rot))
      rw [hrec _ (ci :: used) h1 h2]
      simp only
      rw [setCell_setCell, List.erase_cons_head,
        setCell_none_of_none hwf (idx_div_lt hidx) (idx_mod_lt hidx)
          (hnf _ (idx_div_lt hidx) _ (idx_mod_lt hidx)
            (le_of_eq (idx_div_mod (n_pos_of_idx hidx)).symm))]
      exact ih grid used hwf hnf
    · simp only [hv, if_false]
      exact ih grid used hwf hnf

/-- State restoration for the card loop. -/
theorem goCards_restore (valid : PyGrid → Nat → Nat → Card → Nat → Bool)
    (rec : PyGrid → List Nat → SearchRes) (cardset : List Card)
    {n idx : Nat} (hidx : idx < n * n)
    (hrec : ∀ g u, Wf n g → NoneFrom n (idx + 1) g → (rec g u).2 = (g, u))
    (cis : List Nat) (grid : PyGrid) (used : List Nat)
    (hwf : Wf n grid) (hnf : NoneFrom n idx grid) :
    (goCards valid rec cardset n (idx / n) (idx % n) cis grid used).2 =
      (grid, used) := by
  induction cis generalizing grid used with
  | nil => rfl
  | cons ci cis ih =>
    rw [goCards]
    by_cases hu : ci ∈ used
    · simp only [hu, if_true]
      exact ih grid used hwf hnf
    · simp only [hu, if_false]
      rw [goRot_restore valid rec _ ci hidx hrec _ grid used hwf hnf]
      exact ih grid used hwf hnf

/-- State restoration for the whole backtracking call: whatever search it
performs, `backtrack` hands back exactly the grid and used-set it was
given. -/
theorem backtrackAux_restore (valid : PyGrid → Nat → Nat → Card → Nat → Bool)
    (cardset : List Card) (n : Nat) :
    ∀ fuel idx grid used, idx ≤ n * n → Wf n grid → NoneFrom n idx grid →
      (backtrackAux valid cardset n fuel idx grid used).2 = (grid, used) := by
  intro fuel
  induction fuel with
  | zero =>
    intro idx grid used _ _ _
    rw [backtrackAux]
    by_cases h : idx = n * n <;> simp [h]
  | succ fuel ih =>
    intro idx grid used hle hwf hnf
    rw [backtrackAux]
    by_cases h : idx = n * n
    · simp [h]
    · simp only [h, if_false]
      have hidx : idx < n * n := by omega
      exact goCards_restore valid _ cardset hidx
        (fun g u hg hn => ih (idx + 1) g u (by omega) hg hn)
        _ grid used hwf hnf

/-- `getD` on a replicated list. -/
theorem list_getD_replicate {α : Type _} :
    ∀ (k i : Nat) (a d : α),
      (List.replicate k a).getD i d = if i < k then a else d
  | 0, i, a, d => by simp
  | k + 1, 0, a, d => by simp [List.replicate]
  | k + 1, i + 1, a, d => by
    have ih := list_getD_replicate k i a d
    simp only [List.replicate]
    rw [show (a :: List.replicate k a).getD (i + 1) d =
      (List.replicate k a).getD i d from rfl, ih]
    by_cases h : i < k <;> simp [h, Nat.succ_lt_succ_iff]

/-- Every cell of the initial grid is empty. -/
theorem getCell_emptyGrid (n r c : Nat) : getCell (emptyGrid n) r c = none := by
  unfold getCell emptyGrid
  rw [list_getD_replicate]
  by_cases h : r < n
  · rw [if_pos h, list_getD_replicate]
    by_cases hc : c < n <;> simp [hc]
  · rw [if_neg h]
    rfl

/-- The initial grid is well-formed. -/
theorem wf_emptyGrid (n : Nat) : Wf n (emptyGrid n) := by
  refine ⟨by simp [emptyGrid], ?_⟩
  intro row hmem
  rw [List.eq_of_mem_replicate hmem]
  simp

/-- The initial grid satisfies the all-empty invariant. -/
theorem noneFrom_emptyGrid (n idx : Nat) : NoneFrom n idx (emptyGrid n) :=
  fun r _ c _ _ => getCell_emptyGrid n r c

/-- Claim C6: every mutation `backtrack` makes is fully reversed: at every
recursion depth the call returns exactly the grid and used-set it received
(the written cell is reset to `None` and the card index removed), so
sibling branches observe identical state; in particular the top-level
search of `solve_puzzle` leaves the live grid entirely empty and the used
set empty. -/
theorem backtrack_state_restored (cardset : List Card) (n : Nat) :
    (∀ fuel idx grid used, idx ≤ n * n → Wf n grid → NoneFrom n idx grid →
      (backtrackAux is_valid_placement cardset n fuel idx grid used).2 =
        (grid, used)) ∧
    (backtrackAux is_valid_placement cardset n (n * n) 0
      (emptyGrid n) []).2 = (emptyGrid n, []) := by
  refine ⟨backtrackAux_restore is_valid_placement cardset n, ?_⟩
  exact backtrackAux_restore is_valid_placement cardset n (n * n) 0 _ []
    (Nat.zero_le _) (wf_emptyGrid n) (noneFrom_emptyGrid n 0)

/-- Witness for C6 at a concrete instance. -/
theorem backtrack_state_restored_witness :
    Wf 1 (emptyGrid 1) ∧ NoneFrom 1 0 (emptyGrid 1) ∧
    (backtrackAux is_valid_placement unicorn_cardset 1 1 0
      (emptyGrid 1) []).2 = (emptyGrid 1, []) :=
  ⟨wf_emptyGrid 1, noneFrom_emptyGrid 1 0,
    (backtrack_state_restored unicorn_cardset 1).1 1 0 (emptyGrid 1) []
      (by decide) (wf_emptyGrid 1) (noneFrom_emptyGrid 1 0)⟩

/-- At the cell the row-major search is filling, the East and South
neighbors are still empty, so the two validators agree. -/
theorem valid_agree {n idx : Nat} (hidx : idx < n * n) {g : PyGrid}
    (hnf : NoneFrom n idx g) (card : Card) :
    is_valid_placement g (idx / n) (idx % n) card n =
      is_valid_placement_noES g (idx / n) (idx % n) card n := by
  have hd := @idx_div_mod n idx (n_pos_of_idx hidx)
  have hB : (if idx % n < n - 1 then
      match getCell g (idx / n) (idx % n + 1) with
      | some rightc => edges_match card.right rightc.left
      | none => true
    else true) = true := by
    by_cases hb : idx % n < n - 1
    · rw [if_pos hb]
      have hc1 : idx % n + 1 < n := by omega
      have hle : idx ≤ idx / n * n + (idx % n + 1) := by omega
      have h1 : getCell g (idx / n) (idx % n + 1) = none :=
        hnf _ (idx_div_lt hidx) _ hc1 hle
      rw [h1]
    · rw [if_neg hb]
  have hC : (if idx / n < n - 1 then
      match getCell g (idx / n + 1) (idx % n) with
      | some below => edges_match card.bottom below.top
      | none => true
    else true) = true := by
    by_cases hb : idx / n < n - 1
    · rw [if_pos hb]
      have hr1 : idx / n + 1 < n := by
        generalize idx / n = q at hb
        omega
      have hle : idx ≤ (idx / n + 1) * n + idx % n := by
        have h2 : (idx / n + 1) * n + idx % n = idx + n := by
          rw [Nat.add_mul, Nat.one_mul]
          omega
        omega
      have h1 : getCell g (idx / n + 1) (idx % n) = none :=
        hnf _ hr1 _ (idx_mod_lt hidx) hle
      rw [h1]
    · rw [if_neg hb]
  unfold is_valid_placement is_valid_placement_noES
  rw [hB, hC]
  simp

/-- The two validators drive the rotation loop identically. -/
theorem goRot_eq (rec1 rec2 : PyGrid → List Nat → SearchRes)
    (base : Card) (ci : Nat) {n idx : Nat} (hidx : idx < n * n)
    (hrec_eq : ∀ g u, Wf n g → NoneFrom n (idx + 1) g → rec1 g u = rec2 g u)
    (hrec_restore : ∀ g u, Wf n g → NoneFrom n (idx + 1) g →
      (rec1 g u).2 = (g, u))
    (rots : List Int) (grid : PyGrid) (used : List Nat)
    (hwf : Wf n grid) (hnf : NoneFrom n idx grid) :
    goRot is_valid_placement rec1 base ci n (idx / n) (idx % n)
        rots grid used =
      goRot is_valid_placement_noES rec2 base ci n (idx / n) (idx % n)
        rots grid used := by
  induction rots generalizing grid used with
  | nil => rfl
  | cons rot rots ih =>
    rw [goRot, goRot]
    have hv := valid_agree hidx hnf (rotate_card base rot)
    by_cases h1 : is_valid_placement grid (idx / n) (idx % n)
        (rotate_card base rot) n
    · have h2 : is_valid_placement_noES grid (idx / n) (idx % n)
          (rotate_card base rot) n = true := by rw [← hv]; exact h1
      simp only [h1, h2, if_true]
      have hg1 : Wf n (setCell grid (idx / n) (idx % n)
          (some (rotate_card base rot))) := wf_setCell hwf _ _ _
      have hg2 := noneFrom_setCell hidx hnf (some (rotate_card base rot))
      rw [← hrec_eq _ (ci :: used) hg1 hg2]
      rw [hrec_restore _ (ci :: used) hg1 hg2]
      simp only
      rw [setCell_setCell, List.erase_cons_head,
        setCell_none_of_none hwf (idx_div_lt hidx) (idx_mod_lt hidx)
          (hnf _ (idx_div_lt hidx) _ (idx_mod_lt hidx)
            (le_of_eq (idx_div_mod (n_pos_of_idx hidx)).symm))]
      rw [ih grid used hwf hnf]
    · have h2 : is_valid_placement_noES grid (idx / n) (idx % n)
          (rotate_card base rot) n = false := by
        rw [← hv]
        exact Bool.not_eq_true _ ▸ (by simpa using h1)
      simp only [h1, h2, if_false, Bool.false_eq_true]
      exact ih grid used hwf hnf

/-- The two validators drive the card loop identically. -/
theorem goCards_eq (rec1 rec2 : PyGrid → List Nat → SearchRes)
    (cardset : List Card) {n idx : Nat} (hidx : idx < n * n)
    (hrec_eq : ∀ g u, Wf n g → NoneFrom n (idx + 1) g → rec1 g u = rec2 g u)
    (hrec_restore : ∀ g u, Wf n g → NoneFrom n (idx + 1) g →
      (rec1 g u).2 = (g, u))
    (cis : List Nat) (grid : PyGrid) (used : List Nat)
    (hwf : Wf n grid) (hnf : NoneFrom n idx grid) :
    goCards is_valid_placement rec1 cardset n (idx / n) (idx % n)
        cis grid used =
      goCards is_valid_placement_noES rec2 cardset n (idx / n) (idx % n)
        cis grid used := by
  induction cis generalizing grid used with
  | nil => rfl
  | cons ci cis ih =>
    rw [goCards, goCards]
    by_cases hu : ci ∈ used
    · simp only [hu, if_true]
      exact ih grid used hwf hnf
    · simp only [hu, if_false]
      rw [← goRot_eq rec1 rec2 _ ci hidx hrec_eq hrec_restore _
        grid used hwf hnf]
      rw [goRot_restore is_valid_placement rec1 _ ci hidx hrec_restore _
        grid used hwf hnf]
      rw [ih grid used hwf hnf]

/-- The whole search is unchanged when the East/South checks are dropped. -/
theorem backtrackAux_eq (cardset : List Card) (n : Nat) :
    ∀ fuel idx grid used, idx ≤ n * n → Wf n grid → NoneFrom n idx grid →
      backtrackAux is_valid_placement cardset n fuel idx grid used =
        backtrackAux is_valid_placement_noES cardset n fuel idx grid used := by
  intro fuel
  induction fuel with
  | zero => intro idx grid used _ _ _; rfl
  | succ fuel ih =>
    intro idx grid used hle hwf hnf
    rw [backtrackAux, backtrackAux]
    by_cases h : idx = n * n
    · simp [h]
    · simp only [h, if_false]
      have hidx : idx < n * n := by omega
      exact goCards_eq _ _ cardset hidx
        (fun g u hg hn => ih (idx + 1) g u (by omega) hg hn)
        (fun g u hg hn => backtrackAux_restore is_valid_placement cardset n
          fuel (idx + 1) g u (by omega) hg hn)
        _ grid used hwf hnf

/-- Claim C3: because the row-major search fills cells left-to-right,
top-to-bottom, the East and South neighbors of the cell being filled are
always empty when `is_valid_placement` is called, so those two checks are
vacuous: the solver using the validator without them returns exactly the
same solution list in the same order. -/
theorem solve_puzzle_omit_east_south (cardset : List Card) (grid_size : Nat) :
    solve_puzzle cardset grid_size = solve_puzzle_noES cardset grid_size := by
  unfold solve_puzzle solve_puzzle_noES
  rw [backtrackAux_eq cardset grid_size (grid_size * grid_size) 0 _ []
    (Nat.zero_le _) (wf_emptyGrid _) (noneFrom_emptyGrid _ 0)]

/-- `edges_match` is symmetric (helper, proved independently of the
claim theorems). -/
theorem edges_match_symm (a b : Edge) : edges_match a b = edges_match b a := by
  unfold edges_match
  by_cases h1 : a.color = b.color <;> by_cases h2 : a.part = b.part <;>
    simp [h1, h2, Ne.symm, eq_comm]

/-- `getD` past the end of a list gives the default. -/
theorem list_getD_oob {α : Type _} :
    ∀ (l : List α) (i : Nat) (d : α), l.length ≤ i → l.getD i d = d
  | [], _, _, _ => rfl
  | x :: xs, 0, d, h => absurd h (by simp)
  | x :: xs, i + 1, d, h => list_getD_oob xs i d (by simpa using h)

/-- Out-of-bounds cells of a well-formed grid read as empty. -/
theorem getCell_none_oob {n : Nat} {g : PyGrid} (hwf : Wf n g)
    {r c : Nat} (h : n ≤ r ∨ n ≤ c) : getCell g r c = none := by
  unfold getCell
  rcases h with h | h
  · rw [list_getD_oob g r [] (by rw [hwf.1]; exact h)]
    rfl
  · by_cases hr : r < n
    · exact list_getD_oob _ c none (by rw [wf_row_length hwf hr]; exact h)
    · rw [list_getD_oob g r [] (by rw [hwf.1]; omega)]
      rfl

/-- Dividing a row-major flat index recovers the row. -/
theorem flat_div {n r c : Nat} (hc : c < n) : (r * n + c) / n = r := by
  rw [Nat.mul_comm r n, Nat.mul_add_div (by omega), Nat.div_eq_of_lt hc,
    Nat.add_zero]

/-- Reducing a row-major flat index recovers the column. -/
theorem flat_mod {n r c : Nat} (hc : c < n) : (r * n + c) % n = c := by
  rw [Nat.mul_comm r n, Nat.mul_add_mod, Nat.mod_eq_of_lt hc]

/-- In-range coordinates have flat index below `n * n`. -/
theorem flat_lt_sq {n r c : Nat} (hr : r < n) (hc : c < n) :
    r * n + c < n * n := by
  have h1 : r * n + c < (r + 1) * n := by
    rw [Nat.add_mul, Nat.one_mul]
    omega
  have h2 : (r + 1) * n ≤ n * n := Nat.mul_le_mul_right n (by omega)
  omega

/-- `getD` into the left part of an append. -/
theorem list_getD_append_left {α : Type _} :
    ∀ (l l' : List α) (i : Nat) (d : α), i < l.length →
      (l ++ l').getD i d = l.getD i d
  | [], _, i, _, h => absurd h (by simp)
  | x :: xs, l', 0, d, _ => rfl
  | x :: xs, l', i + 1, d, h =>
    list_getD_append_left xs l' i d (by simpa using h)

/-- `getD` at the position of the appended last element. -/
theorem list_getD_snoc_length {α : Type _} :
    ∀ (l : List α) (x d : α), (l ++ [x]).getD l.length d = x
  | [], x, d => rfl
  | y :: ys, x, d => list_getD_snoc_length ys x d

/-- Extract the top-neighbor check from a successful validation. -/
theorem valid_top_of {g : PyGrid} {row col : Nat} {card : Card} {n : Nat}
    (h : is_valid_placement g row col card n = true) (hrow : 0 < row)
    {above : Card} (ha : getCell g (row - 1) col = some above) :
    edges_match card.top above.bottom = true := by
  unfold is_valid_placement at h
  simp only [Bool.and_eq_true] at h
  obtain ⟨⟨⟨h3, _⟩, _⟩, _⟩ := h
  rw [if_pos hrow, ha] at h3
  exact h3

/-- Extract the left-neighbor check from a successful validation. -/
theorem valid_left_of {g : PyGrid} {row col : Nat} {card : Card} {n : Nat}
    (h : is_valid_placement g row col card n = true) (hcol : 0 < col)
    {leftc : Card} (ha : getCell g row (col - 1) = some leftc) :
    edges_match card.left leftc.right = true := by
  unfold is_valid_placement at h
  simp only [Bool.and_eq_true] at h
  obtain ⟨_, h3⟩ := h
  rw [if_pos hcol, ha] at h3
  exact h3

/-- Placing a card that passes `is_valid_placement` at the current
row-major cell preserves the adjacency invariant. -/
theorem adjacentOk_place {n idx : Nat} (hidx : idx < n * n) {g : PyGrid}
    (hwf : Wf n g) (hnf : NoneFrom n idx g) (hadj : AdjacentOk g)
    {card : Card}
    (hv : is_valid_placement g (idx / n) (idx % n) card n = true) :
    AdjacentOk (setCell g (idx / n) (idx % n) (some card)) := by
  have hrow := idx_div_lt hidx
  have hcol := idx_mod_lt hidx
  have hflat := @idx_div_mod n idx (n_pos_of_idx hidx)
  constructor
  · intro r c a b ha hb
    by_cases h1 : r = idx / n ∧ c = idx % n
    · exfalso
      obtain ⟨hr1, hc1⟩ := h1
      rw [getCell_setCell_ne (fun hh => by omega) _] at hb
      by_cases hcn : c + 1 < n
      · rw [hnf r (by omega) (c + 1) hcn (by
          subst hr1; subst hc1; omega)] at hb
        cases hb
      · rw [getCell_none_oob hwf (Or.inr (by omega))] at hb
        cases hb
    · by_cases h2 : r = idx / n ∧ c + 1 = idx % n
      · obtain ⟨hr1, hc1⟩ := h2
        have hc0 : 0 < idx % n := by omega
        rw [hr1, hc1] at hb
        rw [getCell_setCell_self hwf hrow hcol] at hb
        have hb' : card = b := by injection hb
        rw [getCell_setCell_ne (fun hh => h1 ⟨hh.1, hh.2⟩) _] at ha
        have ha' : getCell g (idx / n) (idx % n - 1) = some a := by
          rw [show idx % n - 1 = c from by omega, ← hr1]
          exact ha
        have hl := valid_left_of hv hc0 ha'
        rw [← hb', edges_match_symm]
        exact hl
      · rw [getCell_setCell_ne (fun hh => h1 ⟨hh.1, hh.2⟩) _] at ha
        rw [getCell_setCell_ne (fun hh => h2 ⟨hh.1, hh.2⟩) _] at hb
        exact hadj.1 r c a b ha hb
  · intro r c a b ha hb
    by_cases h1 : r = idx / n ∧ c = idx % n
    · exfalso
      obtain ⟨hr1, hc1⟩ := h1
      rw [getCell_setCell_ne (fun hh => by omega) _] at hb
      by_cases hrn : r + 1 < n
      · rw [hnf (r + 1) hrn c (by omega) (by
          rw [hr1, hc1]
          have hexp : (idx / n + 1) * n + idx % n =
              idx / n * n + idx % n + n := by
            rw [Nat.add_mul, Nat.one_mul]
            omega
          omega)] at hb
        cases hb
      · rw [getCell_none_oob hwf (Or.inl (by omega))] at hb
        cases hb
    · by_cases h2 : r + 1 = idx / n ∧ c = idx % n
      · obtain ⟨hr1, hc1⟩ := h2
        have hr0 : 0 < idx / n := by omega
        rw [hr1, hc1] at hb
        rw [getCell_setCell_self hwf hrow hcol] at hb
        have hb' : card = b := by injection hb
        rw [getCell_setCell_ne (fun hh => h1 ⟨hh.1, hh.2⟩) _] at ha
        have ha' : getCell g (idx / n - 1) (idx % n) = some a := by
          rw [show idx / n - 1 = r from by omega, ← hc1]
          exact ha
        have ht := valid_top_of hv hr0 ha'
        rw [← hb', edges_match_symm]
        exact ht
      · rw [getCell_setCell_ne (fun hh => h1 ⟨hh.1, hh.2⟩) _] at ha
        rw [getCell_setCell_ne (fun hh => h2 ⟨by omega, hh.2⟩) _] at hb
        exact hadj.2 r c a b ha hb

/-- Recording the new placement extends the tracking data. -/
theorem tracked_place {cardset : List Card} {n idx : Nat}
    (hidx : idx < n * n) {g : PyGrid} {used : List Nat}
    {pairs : List (Nat × Int)} (hwf : Wf n g)
    (ht : Tracked cardset n idx g used pairs) {ci : Nat} (rot : Int)
    (hci : ci < cardset.length) (hciu : ci ∉ used) :
    Tracked cardset n (idx + 1)
      (setCell g (idx / n) (idx % n)
        (some (rotate_card (cardset.getD ci default) rot)))
      (ci :: used) (pairs ++ [(ci, rot)]) := by
  obtain ⟨hlen, hnd, hmem, hcells⟩ := ht
  refine ⟨by simp [hlen], ?_, ?_, ?_⟩
  · rw [List.map_append]
    rw [List.nodup_append]
    refine ⟨hnd, List.nodup_singleton _, ?_⟩
    intro x hx hx'
    simp only [List.map_cons, List.map_nil, List.mem_singleton] at hx'
    subst hx'
    obtain ⟨p, hp, hpx⟩ := List.mem_map.mp hx
    exact hciu (hpx ▸ (hmem p hp).2)
  · intro p hp
    rcases List.mem_append.mp hp with h | h
    · exact ⟨(hmem p h).1, List.mem_cons_of_mem _ (hmem p h).2⟩
    · rw [List.mem_singleton.mp h]
      exact ⟨hci, List.mem_cons_self _ _⟩
  · intro k hk
    by_cases hke : k < idx
    · rw [list_getD_append_left _ _ _ _ (by omega)]
      have hkn : k < n * n := by omega
      have hkk : k / n * n + k % n = k :=
        @idx_div_mod n k (n_pos_of_idx hidx)
      rw [getCell_setCell_flat_ne hidx (idx_div_lt hkn)
        (idx_mod_lt hkn) (by omega) _]
      exact hcells k hke
    · have hk' : k = idx := by omega
      subst hk'
      have hgd : (pairs ++ [(ci, rot)]).getD k (0, 0) = (ci, rot) := by
        conv_lhs => rw [← hlen]
        exact list_getD_snoc_length _ _ _
      rw [hgd]
      exact getCell_setCell_self hwf (idx_div_lt hidx) (idx_mod_lt hidx) _

/-- A valid placement extends the search invariant to the next cell. -/
theorem searchInv_place {cardset : List Card} {n idx : Nat}
    (hidx : idx < n * n) {g : PyGrid} {used : List Nat}
    (hinv : SearchInv cardset n idx g used) {ci : Nat}
    (hci : ci < cardset.length) (hciu : ci ∉ used) {rot : Int}
    (hv : is_valid_placement g (idx / n) (idx % n)
      (rotate_card (cardset.getD ci default) rot) n = true) :
    SearchInv cardset n (idx + 1)
      (setCell g (idx / n) (idx % n)
        (some (rotate_card (cardset.getD ci default) rot))) (ci :: used) := by
  obtain ⟨hwf, hnf, hadj, pairs, ht⟩ := hinv
  exact ⟨wf_setCell hwf _ _ _, noneFrom_setCell hidx hnf _,
    adjacentOk_place hidx hwf hnf hadj hv,
    pairs ++ [(ci, rot)], tracked_place hidx hwf ht rot hci hciu⟩

/-- At the terminal cell index the invariant says the grid is a valid
solution. -/
theorem isValidSolution_of_inv {cardset : List Card} {n : Nat} {g : PyGrid}
    {used : List Nat} (hinv : SearchInv cardset n (n * n) g used) :
    isValidSolution cardset n g := by
  obtain ⟨hwf, _, hadj, pairs, hlen, hnd, hmem, hcells⟩ := hinv
  refine ⟨hwf.1, hwf.2, ?_, hadj, pairs, hlen, hnd,
    fun p hp => (hmem p hp).1, hcells⟩
  intro r hr c hc
  have hk : r * n + c < n * n := flat_lt_sq hr hc
  have hcell := hcells (r * n + c) hk
  rw [flat_div hc, flat_mod hc] at hcell
  rw [hcell]
  simp

/-- Every solution emitted by the rotation loop is valid. -/
theorem goRot_sound (rec : PyGrid → List Nat → SearchRes)
    {cardset : List Card} (base : Card) (ci : Nat) {n idx : Nat}
    (hidx : idx < n * n) (hbase : base = cardset.getD ci default)
    (hci : ci < cardset.length)
    (hrec_restore : ∀ g u, Wf n g → NoneFrom n (idx + 1) g →
      (rec g u).2 = (g, u))
    (hrec_sound : ∀ g u, SearchInv cardset n (idx + 1) g u →
      ∀ sol ∈ (rec g u).1, isValidSolution cardset n sol)
    (rots : List Int) :
    ∀ grid used, ci ∉ used → SearchInv cardset n idx grid used →
      ∀ sol ∈ (goRot is_valid_placement rec base ci n (idx / n) (idx % n)
        rots grid used).1, isValidSolution cardset n sol := by
  subst hbase
  induction rots with
  | nil =>
    intro grid used _ _ sol hsol
    simp only [goRot] at hsol
    cases hsol
  | cons rot rots ih =>
    intro grid used hciu hinv sol hsol
    rw [goRot] at hsol
    by_cases hv : is_valid_placement grid (idx / n) (idx % n)
        (rotate_card (cardset.getD ci default) rot) n
    · simp only [hv, if_true] at hsol
      have hinv' := searchInv_place hidx hinv hci hciu hv
      rcases List.mem_append.mp hsol with h | h
      · exact hrec_sound _ _ hinv' sol h
      · rw [hrec_restore _ (ci :: used) hinv'.1 hinv'.2.1] at h
        rw [setCell_setCell, List.erase_cons_head,
          setCell_none_of_none hinv.1 (idx_div_lt hidx) (idx_mod_lt hidx)
            (hinv.2.1 _ (idx_div_lt hidx) _ (idx_mod_lt hidx)
              (le_of_eq (idx_div_mod (n_pos_of_idx hidx)).symm))] at h
        exact ih grid used hciu hinv sol h
    · simp only [hv, if_false, Bool.false_eq_true] at hsol
      exact ih grid used hciu hinv sol hsol

/-- Every solution emitted by the card loop is valid. -/
theorem goCards_sound (rec : PyGrid → List Nat → SearchRes)
    (cardset : List Card) {n idx : Nat} (hidx : idx < n * n)
    (hrec_restore : ∀ g u, Wf n g → NoneFrom n (idx + 1) g →
      (rec g u).2 = (g, u))
    (hrec_sound : ∀ g u, SearchInv cardset n (idx + 1) g u →
      ∀ sol ∈ (rec g u).1, isValidSolution cardset n sol)
    (cis : List Nat) (hcis : ∀ ci ∈ cis, ci < cardset.length) :
    ∀ grid used, SearchInv cardset n idx grid used →
      ∀ sol ∈ (goCards is_valid_placement rec cardset n (idx / n) (idx % n)
        cis grid used).1, isValidSolution cardset n sol := by
  induction cis with
  | nil =>
    intro grid used _ sol hsol
    simp only [goCards] at hsol
    cases hsol
  | cons ci cis ih =>
    intro grid used hinv sol hsol
    rw [goCards] at hsol
    by_cases hu : ci ∈ used
    · simp only [hu, if_true] at hsol
      exact ih (fun c hc => hcis c (List.mem_cons_of_mem _ hc))
        grid used hinv sol hsol
    · simp only [hu, if_false] at hsol
      rcases List.mem_append.mp hsol with h | h
      · exact goRot_sound rec _ ci hidx rfl
          (hcis ci (List.mem_cons_self _ _)) hrec_restore hrec_sound
          [0, 1, 2, 3] grid used hu hinv sol h
      · rw [goRot_restore is_valid_placement rec _ ci hidx hrec_restore _
          grid used hinv.1 hinv.2.1] at h
        exact ih (fun c hc => hcis c (List.mem_cons_of_mem _ hc))
          grid used hinv sol h

/-- Every solution emitted by the backtracking search is valid. -/
theorem backtrackAux_sound (cardset : List Card) (n : Nat) :
    ∀ fuel idx grid used, idx ≤ n * n →
      SearchInv cardset n idx grid used →
      ∀ sol ∈ (backtrackAux is_valid_placement cardset n fuel
        idx grid used).1, isValidSolution cardset n sol := by
  intro fuel
  induction fuel with
  | zero =>
    intro idx grid used hle hinv sol hsol
    rw [backtrackAux] at hsol
    by_cases h : idx = n * n
    · rw [if_pos h] at hsol
      simp only [List.mem_singleton] at hsol
      subst hsol
      exact isValidSolution_of_inv (h ▸ hinv)
    · rw [if_neg h] at hsol
      cases hsol
  | succ fuel ih =>
    intro idx grid used hle hinv sol hsol
    rw [backtrackAux] at hsol
    by_cases h : idx = n * n
    · rw [if_pos h] at hsol
      simp only [List.mem_singleton] at hsol
      subst hsol
      exact isValidSolution_of_inv (h ▸ hinv)
    · rw [if_neg h] at hsol
      have hidx : idx < n * n := by omega
      exact goCards_sound _ cardset hidx
        (fun g u hg hn => backtrackAux_restore is_valid_placement cardset n
          fuel (idx + 1) g u (by omega) hg hn)
        (fun g u hin sol' hsol' => ih (idx + 1) g u (by omega) hin sol' hsol')
        (List.range cardset.length) (fun c hc => List.mem_range.mp hc)
        grid used hinv sol hsol

/-- The search invariant holds at the start of the search. -/
theorem searchInv_init (cardset : List Card) (n : Nat) :
    SearchInv cardset n 0 (emptyGrid n) [] := by
  refine ⟨wf_emptyGrid n, noneFrom_emptyGrid n 0, ⟨?_, ?_⟩,
    [], rfl, List.nodup_nil, by simp, by simp⟩
  · intro r c a b ha _
    rw [getCell_emptyGrid] at ha
    cases ha
  · intro r c a b ha _
    rw [getCell_emptyGrid] at ha
    cases ha

/-- An in-range `getD` agrees with `get`. -/
theorem list_getD_eq_get {α : Type _} :
    ∀ (l : List α) (k : Fin l.length) (d : α), l.getD (k : Nat) d = l.get k
  | [], k, _ => absurd k.2 (by simp)
  | x :: xs, ⟨0, _⟩, d => rfl
  | x :: xs, ⟨i + 1, h⟩, d => list_getD_eq_get xs ⟨i, by simpa using h⟩ d

/-- With exactly `n * n` catalog cards, a valid solution uses every
catalog card: the `n * n` distinct tracked indices exhaust the catalog. -/
theorem card_coverage {cardset : List Card} {n : Nat} {sol : PyGrid}
    (hlen : cardset.length = n * n) (hval : isValidSolution cardset n sol) :
    ∀ i, i < cardset.length → ∃ r c : Nat, r < n ∧ c < n ∧ ∃ rot : Int,
      getCell sol r c = some (rotate_card (cardset.getD i default) rot) := by
  obtain ⟨_, _, _, _, pairs, hplen, hnd, hbound, hcells⟩ := hval
  intro i hi
  have hsub : (pairs.map Prod.fst).toFinset ⊆ Finset.range (n * n) := by
    intro x hx
    rw [List.mem_toFinset] at hx
    obtain ⟨p, hp, hpx⟩ := List.mem_map.mp hx
    rw [Finset.mem_range, ← hpx]
    exact hlen ▸ hbound p hp
  have hcard : (Finset.range (n * n)).card ≤
      (pairs.map Prod.fst).toFinset.card := by
    rw [List.toFinset_card_of_nodup hnd, List.length_map, hplen,
      Finset.card_range]
  have heq := Finset.eq_of_subset_of_card_le hsub hcard
  have hmem : i ∈ pairs.map Prod.fst := by
    rw [← List.mem_toFinset, heq, Finset.mem_range]
    omega
  obtain ⟨p, hp, hpi⟩ := List.mem_map.mp hmem
  obtain ⟨k, hkp⟩ := List.get_of_mem hp
  have hk : (k : Nat) < n * n := by
    have := k.2
    omega
  have hgd : pairs.getD (k : Nat) (0, 0) = p := by
    rw [list_getD_eq_get pairs k (0, 0)]
    exact hkp
  refine ⟨(k : Nat) / n, (k : Nat) % n, idx_div_lt hk, idx_mod_lt hk,
    p.2, ?_⟩
  have hc := hcells (k : Nat) hk
  rw [hgd, hpi] at hc
  exact hc

/-- Claim C1: with a catalog of exactly `grid_size²` cards, every grid in
the list returned by `solve_puzzle` has `grid_size` rows of `grid_size`
cells, every cell filled, every horizontally or vertically adjacent pair
of cells matching under `edges_match`, the cells are rotations of catalog
cards at pairwise-distinct indices, and every catalog card occupies some
cell (each card used exactly once). -/
theorem solve_puzzle_sound (cardset : List Card) (grid_size : Nat)
    (hlen : cardset.length = grid_size * grid_size) :
    ∀ sol ∈ solve_puzzle cardset grid_size,
      isValidSolution cardset grid_size sol ∧
      ∀ i, i < cardset.length → ∃ r c : Nat, r < grid_size ∧ c < grid_size ∧
        ∃ rot : Int, getCell sol r c =
          some (rotate_card (cardset.getD i default) rot) := by
  intro sol hsol
  have hval := backtrackAux_sound cardset grid_size
    (grid_size * grid_size) 0 (emptyGrid grid_size) [] (Nat.zero_le _)
    (searchInv_init cardset grid_size) sol hsol
  exact ⟨hval, card_coverage hlen hval⟩

/-- Witness for C1 at a concrete instance. -/
theorem solve_puzzle_sound_witness :
    ([witnessCard] : List Card).length = 1 * 1 ∧
    witnessSol ∈ solve_puzzle [witnessCard] 1 ∧
    (isValidSolution [witnessCard] 1 witnessSol ∧
      ∀ i, i < ([witnessCard] : List Card).length →
        ∃ r c : Nat, r < 1 ∧ c < 1 ∧ ∃ rot : Int, getCell witnessSol r c =
          some (rotate_card (([witnessCard] : List Card).getD i default)
            rot)) :=
  ⟨by decide, by decide,
    solve_puzzle_sound [witnessCard] 1 (by decide) witnessSol (by decide)⟩

/-- `dropWhile` over an all-whitespace prefix. -/
theorem dropWhile_ws_append {pre t : PyStr}
    (hpre : ∀ ch ∈ pre, ch.isWhitespace = true) :
    (pre ++ t).dropWhile Char.isWhitespace = t.dropWhile Char.isWhitespace := by
  induction pre with
  | nil => rfl
  | cons c cs ih =>
    rw [List.cons_append, List.dropWhile_cons,
      if_pos (hpre c (List.mem_cons_self _ _))]
    exact ih (fun ch hch => hpre ch (List.mem_cons_of_mem _ hch))

/-- `dropWhile` stops at a non-whitespace head. -/
theorem dropWhile_ws_cons_of {x : Char} {xs : PyStr}
    (hx : x.isWhitespace = false) :
    (x :: xs).dropWhile Char.isWhitespace = x :: xs := by
  rw [List.dropWhile_cons]
  simp [hx]

/-- A string with no whitespace at all strips to itself. -/
theorem pyStrip_eq_self {s : PyStr}
    (h : ∀ ch ∈ s, ch.isWhitespace = false) : pyStrip s = s := by
  unfold pyStrip
  have h1 : s.dropWhile Char.isWhitespace = s := by
    cases s with
    | nil => rfl
    | cons x xs => exact dropWhile_ws_cons_of (h x (List.mem_cons_self _ _))
  rw [h1]
  have h2 : s.reverse.dropWhile Char.isWhitespace = s.reverse := by
    cases hs : s.reverse with
    | nil => rfl
    | cons x xs =>
      refine dropWhile_ws_cons_of (h x ?_)
      rw [← List.mem_reverse, hs]
      exact List.mem_cons_self _ _
  rw [h2, List.reverse_reverse]

/-- Stripping whitespace from around a block whose first and last
characters are not whitespace. -/
theorem pyStrip_sandwich (pre suf zs : PyStr) (x y : Char)
    (hpre : ∀ ch ∈ pre, ch.isWhitespace = true)
    (hsuf : ∀ ch ∈ suf, ch.isWhitespace = true)
    (hx : x.isWhitespace = false) (hy : y.isWhitespace = false) :
    pyStrip (pre ++ (x :: (zs ++ [y])) ++ suf) = x :: (zs ++ [y]) := by
  unfold pyStrip
  rw [List.append_assoc, dropWhile_ws_append hpre, List.cons_append,
    dropWhile_ws_cons_of hx]
  have hshape : x :: (zs ++ [y] ++ suf) = (x :: zs) ++ [y] ++ suf := by
    simp
  rw [hshape, List.reverse_append, List.reverse_append]
  rw [dropWhile_ws_append (fun ch hch =>
    hsuf ch (List.mem_reverse.mp hch))]
  rw [show (([y] : PyStr).reverse ++ (x :: zs).reverse =
    y :: (x :: zs).reverse) from rfl]
  rw [dropWhile_ws_cons_of hy]
  simp

/-- Splitting never yields the empty list of pieces. -/
theorem pySplit_ne_nil (sep : Char) : ∀ l : PyStr, pySplit sep l ≠ []
  | [] => by simp [pySplit]
  | c :: cs => by
    rw [pySplit]
    by_cases h : c = sep
    · simp [h]
    · simp only [h, if_false]
      match hs : pySplit sep cs with
      | [] => simp
      | p :: ps => simp

/-- Splitting a string that starts with the separator. -/
theorem pySplit_sep_cons (sep : Char) (t : PyStr) :
    pySplit sep (sep :: t) = [] :: pySplit sep t := by
  rw [pySplit]
  simp

/-- Splitting after a separator-free prefix. -/
theorem pySplit_no_sep_append (sep : Char) :
    ∀ (p t : PyStr), sep ∉ p →
      pySplit sep (p ++ t) =
        (p ++ (pySplit sep t).headD []) :: (pySplit sep t).tail
  | [], t, _ => by
    match hs : pySplit sep t with
    | [] => exact absurd hs (pySplit_ne_nil sep t)
    | q :: qs => simp
  | c :: p, t, hp => by
    have hc : ¬c = sep := fun h => hp (h ▸ List.mem_cons_self _ _)
    rw [List.cons_append, pySplit]
    simp only [hc, if_false]
    rw [pySplit_no_sep_append sep p t (fun h => hp (List.mem_cons_of_mem _ h))]
    simp

/-- Splitting a separator-joined list of separator-free pieces, with a
trailing separator. -/
theorem pySplit_join (sep : Char) :
    ∀ ps : List PyStr, ps ≠ [] → (∀ p ∈ ps, sep ∉ p) →
      pySplit sep (pyJoin [sep] ps ++ [sep]) = ps ++ [[]]
  | [], h, _ => absurd rfl h
  | [p], _, hps => by
    rw [show pyJoin [sep] [p] = p from rfl]
    rw [pySplit_no_sep_append sep p [sep] (hps p (List.mem_cons_self _ _))]
    rw [pySplit_sep_cons]
    simp [pySplit]
  | p :: q :: ps, _, hps => by
    rw [show pyJoin [sep] (p :: q :: ps) =
      p ++ [sep] ++ pyJoin [sep] (q :: ps) from rfl]
    have hrest := pySplit_join sep (q :: ps) (List.cons_ne_nil q ps)
      (fun r hr => hps r (List.mem_cons_of_mem _ hr))
    rw [List.append_assoc, List.append_assoc]
    rw [pySplit_no_sep_append sep p _ (hps p (List.mem_cons_self _ _))]
    rw [show (([sep] : PyStr) ++ (pyJoin [sep] (q :: ps) ++ [sep])) =
      sep :: (pyJoin [sep] (q :: ps) ++ [sep]) from rfl]
    rw [pySplit_sep_cons, hrest]
    simp

/-- Parsing one framed line back into its pieces. -/
theorem parse_pipeLine (parts : List PyStr) (hne : parts ≠ [])
    (hparts : ∀ p ∈ parts, ('|') ∉ p) :
    pySplit ('|') (pipeLine parts) = [] :: (parts ++ [[]]) := by
  unfold pipeLine
  rw [show ((['|'] : PyStr) ++ pyJoin ['|'] parts ++ ['|']) =
    ('|') :: (pyJoin ['|'] parts ++ ['|']) from by simp]
  rw [pySplit_sep_cons, pySplit_join ('|') parts hne hparts]

/-- Any `A ++ Z ++ B` with nonempty `A` and `B` has the sandwich shape
`first-of-A :: (middle ++ [last-of-B])`. -/
theorem core_shape {A Z B : PyStr} (hA : A ≠ []) (hB : B ≠ []) :
    ∃ x zs y, A ++ Z ++ B = x :: (zs ++ [y]) ∧ x ∈ A ∧ y ∈ B := by
  obtain ⟨x, xs, rfl⟩ : ∃ x xs, A = x :: xs := by
    cases A with
    | nil => exact absurd rfl hA
    | cons x xs => exact ⟨x, xs, rfl⟩
  have hBd := List.dropLast_append_getLast hB
  refine ⟨x, xs ++ Z ++ B.dropLast, B.getLast hB, ?_,
    List.mem_cons_self _ _, List.getLast_mem hB⟩
  conv_lhs => rw [← hBd]
  simp

/-- Stripping a framed cell field recovers its core. -/
theorem strip_cell (pre suf A Z B : PyStr)
    (hpre : ∀ ch ∈ pre, ch.isWhitespace = true)
    (hsuf : ∀ ch ∈ suf, ch.isWhitespace = true)
    (hA : A ≠ []) (hB : B ≠ [])
    (hAc : ∀ ch ∈ A, ch.isWhitespace = false)
    (hBc : ∀ ch ∈ B, ch.isWhitespace = false) :
    pyStrip (pre ++ (A ++ Z ++ B) ++ suf) = A ++ Z ++ B := by
  obtain ⟨x, zs, y, hshape, hxA, hyB⟩ := @core_shape A Z B hA hB
  rw [hshape]
  exact pyStrip_sandwich pre suf zs x y hpre hsuf (hAc x hxA) (hBc y hyB)

/-- The stripped top field of a good card is its top core string. -/
theorem strip_cellTop {c : Card} (h : GoodCard c) :
    pyStrip (cellTopStr c) = c.top.color ++ c.top.part := by
  obtain ⟨⟨h1, h2, hch⟩, _, _, _⟩ := h
  have := strip_cell [' ', ' ', ' '] [' ', ' ', ' '] c.top.color []
    c.top.part (by decide) (by decide) h1 h2
    (fun ch hc => (hch ch (List.mem_append_left _ hc)).1)
    (fun ch hc => (hch ch (List.mem_append_right _ hc)).1)
  simpa [cellTopStr] using this

/-- The stripped bottom field of a good card is its bottom core string. -/
theorem strip_cellBot {c : Card} (h : GoodCard c) :
    pyStrip (cellBotStr c) = c.bottom.color ++ c.bottom.part := by
  obtain ⟨_, _, ⟨h1, h2, hch⟩, _⟩ := h
  have := strip_cell [' ', ' ', ' '] [' ', ' ', ' '] c.bottom.color []
    c.bottom.part (by decide) (by decide) h1 h2
    (fun ch hc => (hch ch (List.mem_append_left _ hc)).1)
    (fun ch hc => (hch ch (List.mem_append_right _ hc)).1)
  simpa [cellBotStr] using this

/-- The stripped middle field of a good card keeps the two inner spaces
but loses the outer two. -/
theorem strip_cellMid {c : Card} (h : GoodCard c) :
    pyStrip (cellMidStr c) = c.left.color ++ c.left.part ++ [' ', ' '] ++
      c.right.color ++ c.right.part := by
  obtain ⟨_, ⟨_, hr2, hrch⟩, _, ⟨hl1, _, hlch⟩⟩ := h
  have := strip_cell [' '] [' '] c.left.color
    (c.left.part ++ [' ', ' '] ++ c.right.color) c.right.part
    (by decide) (by decide) hl1 hr2
    (fun ch hc => (hlch ch (List.mem_append_left _ hc)).1)
    (fun ch hc => (hrch ch (List.mem_append_right _ hc)).1)
  · simpa [cellMidStr, List.append_assoc] using this

/-- Absence from both halves of an append. -/
theorem not_mem_append {α : Type _} {a : α} {l1 l2 : List α}
    (h1 : a ∉ l1) (h2 : a ∉ l2) : a ∉ l1 ++ l2 := by
  simp [List.mem_append, h1, h2]

/-- No `|` occurs in the top field of a good card. -/
theorem pipe_not_mem_cellTop {c : Card} (h : GoodCard c) :
    ('|') ∉ cellTopStr c := by
  obtain ⟨⟨_, _, hch⟩, _, _, _⟩ := h
  unfold cellTopStr
  exact not_mem_append (not_mem_append (not_mem_append (by decide)
    (fun hx => (hch _ (List.mem_append_left _ hx)).2 rfl))
    (fun hx => (hch _ (List.mem_append_right _ hx)).2 rfl)) (by decide)

/-- No `|` occurs in the bottom field of a good card. -/
theorem pipe_not_mem_cellBot {c : Card} (h : GoodCard c) :
    ('|') ∉ cellBotStr c := by
  obtain ⟨_, _, ⟨_, _, hch⟩, _⟩ := h
  unfold cellBotStr
  exact not_mem_append (not_mem_append (not_mem_append (by decide)
    (fun hx => (hch _ (List.mem_append_left _ hx)).2 rfl))
    (fun hx => (hch _ (List.mem_append_right _ hx)).2 rfl)) (by decide)

/-- No `|` occurs in the middle field of a good card. -/
theorem pipe_not_mem_cellMid {c : Card} (h : GoodCard c) :
    ('|') ∉ cellMidStr c := by
  obtain ⟨_, ⟨_, _, hrch⟩, _, ⟨_, _, hlch⟩⟩ := h
  unfold cellMidStr
  exact not_mem_append (not_mem_append (not_mem_append (not_mem_append
    (not_mem_append (not_mem_append (by decide)
      (fun hx => (hlch _ (List.mem_append_left _ hx)).2 rfl))
      (fun hx => (hlch _ (List.mem_append_right _ hx)).2 rfl))
    (by decide))
    (fun hx => (hrch _ (List.mem_append_left _ hx)).2 rfl))
    (fun hx => (hrch _ (List.mem_append_right _ hx)).2 rfl))
    (by decide)

/-- A dash separator line strips to itself. -/
theorem strip_dash (k : Nat) :
    pyStrip (List.replicate k ('-')) = List.replicate k ('-') :=
  pyStrip_eq_self (by
    intro ch hch
    rw [List.eq_of_mem_replicate hch]
    decide)

/-- A dash separator line does not start with `Solution`. -/
theorem solutionTag_not_dash (k : Nat) :
    ((("Solution").toList).isPrefixOf (List.replicate (k + 1) ('-'))) =
      false := by
  rw [show ("Solution").toList = 'S' :: ("olution").toList from rfl,
    List.replicate_succ]
  simp [List.isPrefixOf]

/-- A dash separator line starts with `-`. -/
theorem dashTag_dash (k : Nat) :
    ((['-'] : PyStr).isPrefixOf (List.replicate (k + 1) ('-'))) = true := by
  rw [List.replicate_succ]
  simp [List.isPrefixOf]

/-- Feeding a separator line to the loop in a state with no pending
double-separator: the completed grid row (if any) is flushed. -/
theorem processLine_sep_state (cs : List (List (List PyStr)))
    (rc : List (List PyStr)) (gs : Option Nat) (k : Nat) :
    ∃ gs', processLine ⟨[], cs, rc, false, gs⟩
        (List.replicate (k + 1) ('-')) =
      ⟨[], cs ++ (if rc.length = 3 then [rc] else []),
        (if rc.length = 3 then [] else rc), true, gs'⟩ := by
  refine ⟨inferSize gs (k + 1), ?_⟩
  unfold processLine
  simp only [List.length_replicate]
  simp only [strip_dash, solutionTag_not_dash, dashTag_dash,
    Bool.false_eq_true, if_false, if_true]
  by_cases h3 : rc.length = 3
  · have hne : rc ≠ [] := by
      intro h
      rw [h] at h3
      simp at h3
    simp [h3, hne, Bool.false_and]
  · by_cases hrc : rc = []
    · subst hrc
      simp [h3]
    · simp [h3, hrc, Bool.false_and]

/-- Feeding a framed `|` line to the loop: the parsed cell cores are
appended as the next line of the current grid row. -/
theorem processLine_pipe (st : ExtractState) (cells cores : List PyStr)
    (hne : cells ≠ []) (hnosep : ∀ p ∈ cells, ('|') ∉ p)
    (hcores : (cells.map pyStrip).filter (fun p => !p.isEmpty) = cores) :
    processLine st (pipeLine cells) =
      { st with
        current_row_cards := st.current_row_cards ++ [cores]
        prev_was_separator := false } := by
  have hstrip : pyStrip (pipeLine cells) = pipeLine cells := by
    unfold pipeLine
    have := pyStrip_sandwich [] [] (pyJoin ['|'] cells) ('|') ('|')
      (by simp) (by simp) (by decide) (by decide)
    simpa using this
  have hshape : pipeLine cells = ('|') :: (pyJoin ['|'] cells ++ ['|']) := by
    simp [pipeLine]
  have hSol : ((("Solution").toList).isPrefixOf (pipeLine cells)) =
      false := by
    rw [hshape, show ("Solution").toList = 'S' :: ("olution").toList
      from rfl]
    simp [List.isPrefixOf]
  have hdash : ((['-'] : PyStr).isPrefixOf (pipeLine cells)) = false := by
    rw [hshape]
    simp [List.isPrefixOf]
  have hpp : ((['|'] : PyStr).isPrefixOf (pipeLine cells)) = true := by
    rw [hshape]
    simp [List.isPrefixOf]
  have hcont : ((pipeLine cells).contains ('|')) = true := by
    rw [hshape]
    simp [List.contains, List.elem]
  have hparts : (((pySplit ('|') (pipeLine cells)).map pyStrip).filter
      (fun p => !p.isEmpty)) = cores := by
    rw [parse_pipeLine cells hne hnosep]
    rw [List.map_cons, List.map_append]
    rw [show pyStrip ([] : PyStr) = [] from rfl]
    rw [List.filter_cons, List.filter_append]
    simp only [List.map_cons, List.map_nil,
      show pyStrip ([] : PyStr) = [] from rfl]
    rw [hcores]
    simp
  unfold processLine
  simp only [hstrip, hSol, hdash, hpp, hcont, hparts, Bool.false_eq_true,
    if_false, Bool.and_self, if_true]

/-- The parsed top line of a row of good cards. -/
theorem cores_top (row : List Card) (h : ∀ c ∈ row, GoodCard c) :
    (((row.map cellTopStr).map pyStrip).filter (fun p => !p.isEmpty)) =
      row.map (fun c => c.top.color ++ c.top.part) := by
  rw [List.map_map,
    show (pyStrip ∘ cellTopStr) = fun c => pyStrip (cellTopStr c) from rfl,
    List.map_congr_left (fun c hc => strip_cellTop (h c hc)),
    List.filter_eq_self.mpr]
  intro p hp
  obtain ⟨c, hc, rfl⟩ := List.mem_map.mp hp
  have h1 := (h c hc).1.1
  simp [List.isEmpty_iff, h1]

/-- The parsed middle line of a row of good cards. -/
theorem cores_mid (row : List Card) (h : ∀ c ∈ row, GoodCard c) :
    (((row.map cellMidStr).map pyStrip).filter (fun p => !p.isEmpty)) =
      row.map (fun c => c.left.color ++ c.left.part ++ [' ', ' '] ++
        c.right.color ++ c.right.part) := by
  rw [List.map_map,
    show (pyStrip ∘ cellMidStr) = fun c => pyStrip (cellMidStr c) from rfl,
    List.map_congr_left (fun c hc => strip_cellMid (h c hc)),
    List.filter_eq_self.mpr]
  intro p hp
  obtain ⟨c, hc, rfl⟩ := List.mem_map.mp hp
  have h1 := (h c hc).2.2.2.1
  simp [List.isEmpty_iff, h1]

/-- The parsed bottom line of a row of good cards. -/
theorem cores_bot (row : List Card) (h : ∀ c ∈ row, GoodCard c) :
    (((row.map cellBotStr).map pyStrip).filter (fun p => !p.isEmpty)) =
      row.map (fun c => c.bottom.color ++ c.bottom.part) := by
  rw [List.map_map,
    show (pyStrip ∘ cellBotStr) = fun c => pyStrip (cellBotStr c) from rfl,
    List.map_congr_left (fun c hc => strip_cellBot (h c hc)),
    List.filter_eq_self.mpr]
  intro p hp
  obtain ⟨c, hc, rfl⟩ := List.mem_map.mp hp
  have h1 := (h c hc).2.2.1.1
  simp [List.isEmpty_iff, h1]

/-- Folding the parser over the rendered blocks of a solution: starting
with no collected solutions, an empty or complete pending row, and the
flag down, the parser ends with exactly the row triplets collected in
order and nothing pending. -/
theorem fold_render (sep : PyStr) (k : Nat)
    (hsep : sep = List.replicate (k + 1) ('-')) :
    ∀ rows : List (List Card),
      (∀ row ∈ rows, row ≠ [] ∧ ∀ c ∈ row, GoodCard c) →
      ∀ (cs : List (List (List PyStr))) (rc : List (List PyStr))
        (gs : Option Nat), (rc = [] ∨ rc.length = 3) →
      ∃ gs', List.foldl processLine ⟨[], cs, rc, false, gs⟩
          ((rows.map (fun row => [sep, pipeLine (row.map cellTopStr),
            pipeLine (row.map cellMidStr),
            pipeLine (row.map cellBotStr)])).flatten ++ [sep]) =
        ⟨[], cs ++ (if rc.length = 3 then [rc] else []) ++
          rows.map rowTriplet, [], true, gs'⟩ := by
  subst hsep
  intro rows
  induction rows with
  | nil =>
    intro _ cs rc gs hrc
    obtain ⟨gs', h1⟩ := processLine_sep_state cs rc gs k
    refine ⟨gs', ?_⟩
    simp only [List.map_nil, List.flatten_nil, List.nil_append,
      List.foldl_cons, List.foldl_nil]
    rw [h1]
    rcases hrc with hrc | hrc
    · subst hrc
      simp
    · simp [hrc]
  | cons row rows ih =>
    intro hgood cs rc gs hrc
    have hrow := hgood row (List.mem_cons_self _ _)
    have hrest : ∀ r ∈ rows, r ≠ [] ∧ ∀ c ∈ r, GoodCard c :=
      fun r hr => hgood r (List.mem_cons_of_mem _ hr)
    obtain ⟨gs1, h1⟩ := processLine_sep_state cs rc gs k
    have hne1 : row.map cellTopStr ≠ [] :=
      fun h => hrow.1 (by simpa using h)
    have hne2 : row.map cellMidStr ≠ [] :=
      fun h => hrow.1 (by simpa using h)
    have hne3 : row.map cellBotStr ≠ [] :=
      fun h => hrow.1 (by simpa using h)
    have hns1 : ∀ p ∈ row.map cellTopStr, ('|') ∉ p := by
      intro p hp
      obtain ⟨c, hc, rfl⟩ := List.mem_map.mp hp
      exact pipe_not_mem_cellTop (hrow.2 c hc)
    have hns2 : ∀ p ∈ row.map cellMidStr, ('|') ∉ p := by
      intro p hp
      obtain ⟨c, hc, rfl⟩ := List.mem_map.mp hp
      exact pipe_not_mem_cellMid (hrow.2 c hc)
    have hns3 : ∀ p ∈ row.map cellBotStr, ('|') ∉ p := by
      intro p hp
      obtain ⟨c, hc, rfl⟩ := List.mem_map.mp hp
      exact pipe_not_mem_cellBot (hrow.2 c hc)
    have h2 : processLine
        ⟨[], cs ++ (if rc.length = 3 then [rc] else []), [], true, gs1⟩
        (pipeLine (row.map cellTopStr)) =
        ⟨[], cs ++ (if rc.length = 3 then [rc] else []),
          [row.map (fun c => c.top.color ++ c.top.part)], false, gs1⟩ := by
      rw [processLine_pipe _ _ _ hne1 hns1 (cores_top row hrow.2)]
      rfl
    have h3 : processLine
        ⟨[], cs ++ (if rc.length = 3 then [rc] else []),
          [row.map (fun c => c.top.color ++ c.top.part)], false, gs1⟩
        (pipeLine (row.map cellMidStr)) =
        ⟨[], cs ++ (if rc.length = 3 then [rc] else []),
          [row.map (fun c => c.top.color ++ c.top.part),
           row.map (fun c => c.left.color ++ c.left.part ++ [' ', ' '] ++
             c.right.color ++ c.right.part)], false, gs1⟩ := by
      rw [processLine_pipe _ _ _ hne2 hns2 (cores_mid row hrow.2)]
      rfl
    have h4 : processLine
        ⟨[], cs ++ (if rc.length = 3 then [rc] else []),
          [row.map (fun c => c.top.color ++ c.top.part),
           row.map (fun c => c.left.color ++ c.left.part ++ [' ', ' '] ++
             c.right.color ++ c.right.part)], false, gs1⟩
        (pipeLine (row.map cellBotStr)) =
        ⟨[], cs ++ (if rc.length = 3 then [rc] else []),
          rowTriplet row, false, gs1⟩ := by
      rw [processLine_pipe _ _ _ hne3 hns3 (cores_bot row hrow.2)]
      rfl
    obtain ⟨gs'', h5⟩ := ih hrest
      (cs ++ (if rc.length = 3 then [rc] else [])) (rowTriplet row) gs1
      (Or.inr rfl)
    refine ⟨gs'', ?_⟩
    have hrc0 : (if rc.length = 3 then ([] : List (List PyStr)) else rc) =
        [] := by
      rcases hrc with h | h
      · subst h
        simp
      · simp [h]
    simp only [List.map_cons, List.flatten_cons, List.cons_append,
      List.append_assoc, List.foldl_cons]
    rw [h1, hrc0, h2, h3, h4]
    rw [show ((if (rowTriplet row).length = 3 then [rowTriplet row]
      else []) = [rowTriplet row]) from by simp [rowTriplet]] at h5
    exact h5.trans (by simp)

/-- `zip3` over three maps of the same list. -/
theorem zip3_map_self {α β γ δ : Type _} (f : α → β) (g : α → γ)
    (h : α → δ) :
    ∀ l : List α, zip3 (l.map f) (l.map g) (l.map h) =
      l.map (fun a => (f a, g a, h a))
  | [] => rfl
  | a :: l => by
    simp only [List.map_cons]
    exact congrArg (List.cons _) (zip3_map_self f g h l)

/-- Normalising the parsed triplets gives the canonical form. -/
theorem normalize_triplets (sol : List (List Card)) :
    normalize_solution (solutionTriplets sol) = canonicalForm sol := by
  unfold normalize_solution solutionTriplets canonicalForm
  rw [List.map_map]
  congr 1
  apply List.map_congr_left
  intro row _
  show pyJoin ['|'] ((zip3 ((rowTriplet row).getD 0 [])
    ((rowTriplet row).getD 1 []) ((rowTriplet row).getD 2 [])).map _) = _
  rw [show (rowTriplet row).getD 0 [] =
    row.map (fun c => c.top.color ++ c.top.part) from rfl]
  rw [show (rowTriplet row).getD 1 [] =
    row.map (fun c => c.left.color ++ c.left.part ++ [' ', ' '] ++
      c.right.color ++ c.right.part) from rfl]
  rw [show (rowTriplet row).getD 2 [] =
    row.map (fun c => c.bottom.color ++ c.bottom.part) from rfl]
  rw [zip3_map_self, List.map_map]
  rfl

/-- Claim C7: rendering a solution grid with `print_solution` and parsing
the rendered text back with `extract_solutions` (under any `grid_size`
argument) reproduces exactly one assignment, and its canonical comparison
form under `normalize_solution` is byte-identical to the canonical form
of the original solution. -/
theorem extract_print_roundtrip (sol : List (List Card)) (gs : Option Nat)
    (hne : sol ≠ [])
    (hgood : ∀ row ∈ sol, row ≠ [] ∧ ∀ c ∈ row, GoodCard c) :
    extract_solutions (print_solution_lines sol) gs =
      [solutionTriplets sol] ∧
    normalize_solution (solutionTriplets sol) = canonicalForm sol := by
  refine ⟨?_, normalize_triplets sol⟩
  obtain ⟨gs', hfold⟩ := fold_render
    (List.replicate (sol.length * 8 + sol.length + 1) ('-'))
    (sol.length * 8 + sol.length) rfl sol hgood [] [] gs (Or.inl rfl)
  unfold extract_solutions print_solution_lines
  simp only []
  rw [hfold]
  have hmap : sol.map rowTriplet ≠ [] :=
    fun h => hne (by simpa using h)
  simp [solutionTriplets, List.isEmpty_iff, hmap]

/-- Witness for C7 at a concrete 1×1 grid. -/
theorem extract_print_roundtrip_witness :
    extract_solutions (print_solution_lines [[witnessCard]]) none =
      [solutionTriplets [[witnessCard]]] ∧
    normalize_solution (solutionTriplets [[witnessCard]]) =
      canonicalForm [[witnessCard]] :=
  extract_print_roundtrip [[witnessCard]] none (by decide)
    (by
      intro row hrow
      simp only [List.mem_singleton] at hrow
      subst hrow
      refine ⟨by decide, ?_⟩
      intro c hc
      simp only [List.mem_singleton] at hc
      subst hc
      exact ⟨⟨by decide, by decide, by decide⟩,
        ⟨by decide, by decide, by decide⟩,
        ⟨by decide, by decide, by decide⟩,
        ⟨by decide, by decide, by decide⟩⟩)

/-- A line with `-` prefix is a `-` followed by something. -/
theorem dash_shape {l : PyStr} (h : ((['-'] : PyStr).isPrefixOf l) = true) :
    ∃ t, l = '-' :: t := by
  cases l with
  | nil => simp [List.isPrefixOf] at h
  | cons c t =>
    simp only [List.isPrefixOf, Bool.and_eq_true, beq_iff_eq] at h
    exact ⟨t, by rw [h.1]⟩

/-- The non-`grid_size` components of one parser step do not depend on
the `grid_size` component of the state. -/
theorem processLine_gs_indep (s : List (List (List (List PyStr))))
    (c : List (List (List PyStr))) (r : List (List PyStr)) (p : Bool)
    (g g' : Option Nat) (line : PyStr) :
    (processLine ⟨s, c, r, p, g⟩ line).solutions =
      (processLine ⟨s, c, r, p, g'⟩ line).solutions ∧
    (processLine ⟨s, c, r, p, g⟩ line).current_solution =
      (processLine ⟨s, c, r, p, g'⟩ line).current_solution ∧
    (processLine ⟨s, c, r, p, g⟩ line).current_row_cards =
      (processLine ⟨s, c, r, p, g'⟩ line).current_row_cards ∧
    (processLine ⟨s, c, r, p, g⟩ line).prev_was_separator =
      (processLine ⟨s, c, r, p, g'⟩ line).prev_was_separator := by
  refine ⟨?_, ?_, ?_, ?_⟩ <;>
    (simp only [processLine] <;> split_ifs <;> rfl)

/-- The non-`grid_size` components of the whole parse do not depend on
the initial `grid_size`. -/
theorem foldl_gs_indep :
    ∀ (lines : List PyStr) (s : List (List (List (List PyStr))))
      (c : List (List (List PyStr))) (r : List (List PyStr)) (p : Bool)
      (g g' : Option Nat),
    (lines.foldl processLine ⟨s, c, r, p, g⟩).solutions =
      (lines.foldl processLine ⟨s, c, r, p, g'⟩).solutions ∧
    (lines.foldl processLine ⟨s, c, r, p, g⟩).current_solution =
      (lines.foldl processLine ⟨s, c, r, p, g'⟩).current_solution ∧
    (lines.foldl processLine ⟨s, c, r, p, g⟩).current_row_cards =
      (lines.foldl processLine ⟨s, c, r, p, g'⟩).current_row_cards ∧
    (lines.foldl processLine ⟨s, c, r, p, g⟩).prev_was_separator =
      (lines.foldl processLine ⟨s, c, r, p, g'⟩).prev_was_separator
  | [], s, c, r, p, g, g' => ⟨rfl, rfl, rfl, rfl⟩
  | l :: ls, s, c, r, p, g, g' => by
    simp only [List.foldl_cons]
    obtain ⟨h1, h2, h3, h4⟩ := processLine_gs_indep s c r p g g' l
    rw [show processLine ⟨s, c, r, p, g⟩ l =
      ⟨(processLine ⟨s, c, r, p, g⟩ l).solutions,
       (processLine ⟨s, c, r, p, g⟩ l).current_solution,
       (processLine ⟨s, c, r, p, g⟩ l).current_row_cards,
       (processLine ⟨s, c, r, p, g⟩ l).prev_was_separator,
       (processLine ⟨s, c, r, p, g⟩ l).grid_size⟩ from rfl]
    rw [show processLine ⟨s, c, r, p, g'⟩ l =
      ⟨(processLine ⟨s, c, r, p, g'⟩ l).solutions,
       (processLine ⟨s, c, r, p, g'⟩ l).current_solution,
       (processLine ⟨s, c, r, p, g'⟩ l).current_row_cards,
       (processLine ⟨s, c, r, p, g'⟩ l).prev_was_separator,
       (processLine ⟨s, c, r, p, g'⟩ l).grid_size⟩ from rfl]
    rw [h1, h2, h3, h4]
    exact foldl_gs_indep ls _ _ _ _
      (processLine ⟨s, c, r, p, g⟩ l).grid_size
      (processLine ⟨s, c, r, p, g'⟩ l).grid_size

/-- Claim C9: with `grid_size=None`, a separator line sets the inferred
grid size from its stripped length — 28 gives 3, 37 or 39 give 4, and
any other length falls back to the default 3 — and parsing continues
identically: the extracted solutions never depend on the `grid_size`
argument at all. -/
theorem extract_solutions_tolerant :
    (∀ (st : ExtractState) (line : PyStr), st.grid_size = none →
      ((['-'] : PyStr).isPrefixOf (pyStrip line)) = true →
      (processLine st line).grid_size =
        some (if (pyStrip line).length = 28 then 3
          else if (pyStrip line).length = 37 ∨ (pyStrip line).length = 39
            then 4 else 3)) ∧
    (∀ (lines : List PyStr) (gs : Option Nat),
      extract_solutions lines gs = extract_solutions lines none) := by
  constructor
  · intro st line h0 hdash
    obtain ⟨t, ht⟩ := dash_shape hdash
    have hSol : ((("Solution").toList).isPrefixOf (pyStrip line)) =
        false := by
      rw [ht, show ("Solution").toList = 'S' :: ("olution").toList
        from rfl]
      simp [List.isPrefixOf]
    unfold processLine
    simp only [hSol, hdash, Bool.false_eq_true, if_false, if_true]
    split_ifs <;> simp_all [inferSize]
  · intro lines gs
    obtain ⟨h1, h2, h3, _⟩ := foldl_gs_indep lines [] [] [] false gs none
    simp only [extract_solutions]
    rw [h1, h2, h3]

/-- Witness for C9 at a concrete separator line of unexpected width. -/
theorem extract_solutions_tolerant_witness :
    (⟨[], [], [], false, none⟩ : ExtractState).grid_size = none ∧
    ((['-'] : PyStr).isPrefixOf
      (pyStrip (List.replicate 30 ('-')))) = true ∧
    (processLine ⟨[], [], [], false, none⟩
        (List.replicate 30 ('-'))).grid_size =
      some (if (pyStrip (List.replicate 30 ('-'))).length = 28 then 3
        else if (pyStrip (List.replicate 30 ('-'))).length = 37 ∨
          (pyStrip (List.replicate 30 ('-'))).length = 39 then 4 else 3) :=
  ⟨rfl, by decide,
    extract_solutions_tolerant.1 ⟨[], [], [], false, none⟩
      (List.replicate 30 ('-')) rfl (by decide)⟩

/-- Claim C8 (counterexample): `"Unicorn"` differs from both accepted
literal values yet `main` accepts it instead of raising an error, so
exactly two variant names are not literally the only accepted ones. -/
theorem main_two_names_counterexample :
    ("Unicorn").toList ≠ ("unicorn").toList ∧
    ("Unicorn").toList ≠ ("ultimate").toList ∧
    (pyMain (("Unicorn").toList)).isOk = true :=
  ⟨by decide, by decide, by decide⟩

/-- Claim C8 (amended): exactly two variant names up to ASCII lowercasing
are accepted; any name whose lowercasing is neither `unicorn` nor
`ultimate` makes `main` raise the `ValueError` immediately — the error
branch performs no search — and the accepted names select the 3×3 or
4×4 puzzle respectively. -/
theorem main_unknown_variant_rejected (pt : PyStr) :
    (pyLower pt ≠ ("unicorn").toList → pyLower pt ≠ ("ultimate").toList →
      pyMain pt = Except.error (errUnknown pt)) ∧
    ((pyMain pt).isOk = true →
      pyLower pt = ("unicorn").toList ∨
        pyLower pt = ("ultimate").toList) ∧
    (pyLower pt = ("unicorn").toList →
      pyMain pt = Except.ok (("Unicorn Puzzle").toList, 3,
        solve_puzzle unicorn_cardset 3)) ∧
    (pyLower pt = ("ultimate").toList →
      pyMain pt = Except.ok (("Ultimate Puzzle").toList, 4,
        solve_puzzle ultimate_cardset 4)) := by
  refine ⟨?_, ?_, ?_, ?_⟩
  · intro h1 h2
    unfold pyMain
    rw [if_neg h1, if_neg h2]
  · intro hok
    by_cases h1 : pyLower pt = ("unicorn").toList
    · exact Or.inl h1
    · by_cases h2 : pyLower pt = ("ultimate").toList
      · exact Or.inr h2
      · exfalso
        unfold pyMain at hok
        rw [if_neg h1, if_neg h2] at hok
        exact Bool.noConfusion hok
  · intro h1
    unfold pyMain
    rw [if_pos h1]
  · intro h2
    have h1 : ¬pyLower pt = ("unicorn").toList := by
      intro h1
      exact absurd (h1.symm.trans h2) (by decide)
    unfold pyMain
    rw [if_neg h1, if_pos h2]

/-- Witness for the amended C8 at a concrete unknown name. -/
theorem main_unknown_variant_rejected_witness :
    pyMain (("foo").toList) = Except.error (errUnknown (("foo").toList)) :=
  (main_unknown_variant_rejected (("foo").toList)).1 (by decide) (by decide)

/-- Claim C10: `main` matches the variant name case-insensitively: every
string lowercasing to `unicorn` selects the 3×3 unicorn puzzle and every
string lowercasing to `ultimate` selects the 4×4 ultimate puzzle. -/
theorem main_case_insensitive (pt : PyStr) :
    (pyLower pt = ("unicorn").toList →
      pyMain pt = Except.ok (("Unicorn Puzzle").toList, 3,
        solve_puzzle unicorn_cardset 3)) ∧
    (pyLower pt = ("ultimate").toList →
      pyMain pt = Except.ok (("Ultimate Puzzle").toList, 4,
        solve_puzzle ultimate_cardset 4)) := by
  refine ⟨?_, ?_⟩
  · intro h1
    unfold pyMain
    rw [if_pos h1]
  · intro h2
    have h1 : ¬pyLower pt = ("unicorn").toList := by
      intro h1
      exact absurd (h1.symm.trans h2) (by decide)
    unfold pyMain
    rw [if_neg h1, if_pos h2]

/-- Witness for C10 at a concrete mixed-case name. -/
theorem main_case_insensitive_witness :
    pyLower (("UNICORN").toList) = ("unicorn").toList ∧
    pyMain (("UNICORN").toList) = Except.ok (("Unicorn Puzzle").toList, 3,
      solve_puzzle unicorn_cardset 3) :=
  ⟨by decide, (main_case_insensitive (("UNICORN").toList)).1 (by decide)⟩
